import Mathlib

set_option maxRecDepth 4000

/-!
Verification of the news-aggregation pipelines in this repository.

The repository contains three Python scripts, each an instance of the same
pipeline shape: fetch per source, normalize records, deduplicate by URL,
sort by date descending, truncate to a bound, and write a JSON snapshot.

  - fetch_nalco_news.py : HTML press-release listing + one Google News RSS
    search feed; list-based accumulation with an explicit dedupe pass
    (function dedupe_items), sort key `it.get("timestamp") or ""`, cap 40.
  - fetch_local_news.py : eleven Google News search feeds; dict-based
    accumulation keyed by the raw entry link, sort key `x["date"]`, cap 25.
  - fetch_psu_news.py   : Google News search feeds grouped by category plus
    official RSS feeds; dict-based accumulation keyed by the stripped entry
    link, sort key `x["date"]`, cap 40.

External capabilities (HTTP transport, feedparser, BeautifulSoup extraction,
email.utils.parsedate_to_datetime, urllib.parse.urljoin) are modelled as
oracle parameters: a fetch outcome is an `Option` value (`none` denotes any
network/parse failure swallowed by the script), and library parsing
functions are universally quantified function arguments.  Everything the
scripts themselves compute (string stripping, the tag-removal regex, the
dd/mm/yyyy date scan, datetime validation and ISO formatting, dict
first-writer-wins accumulation, sorting, truncation) is defined here
executably, translated from the Python source.
-/

/-! ## Python string primitives -/

/-- Whitespace recognised by Python `str.strip()` on ASCII text:
space, tab, newline, carriage return, vertical tab, form feed. -/
def isPyWs (c : Char) : Bool :=
  c = ' ' || c = '\t' || c = '\n' || c = '\r' || c = Char.ofNat 11 || c = Char.ofNat 12

/-- Drop trailing characters satisfying `p` (the mirror image of
`List.dropWhile`), used to model the right half of `str.strip()`. -/
def dropEndWhile (p : Char → Bool) : List Char → List Char
  | [] => []
  | c :: t =>
    match dropEndWhile p t with
    | [] => if p c then [] else [c]
    | r => c :: r

/-- Model of Python `str.strip()` on a list of code points. -/
def pyStripChars (l : List Char) : List Char :=
  dropEndWhile isPyWs (l.dropWhile isPyWs)

/-- Model of Python `str.strip()`. -/
def pyStrip (s : String) : String :=
  ⟨pyStripChars s.data⟩

/-- Code-point lexicographic strict order on lists of characters: this is
exactly how Python compares two `str` values. -/
def charListLt : List Char → List Char → Bool
  | [], [] => false
  | [], _ :: _ => true
  | _ :: _, [] => false
  | a :: as, b :: bs => if a < b then true else if b < a then false else charListLt as bs

/-- Python string `<`, used as the comparator underlying `list.sort` /
`sorted` with a string key. -/
def strLtB (s t : String) : Bool :=
  charListLt s.data t.data

/-- Model of the Python slice `s[:n]` (first `n` code points). -/
def pyTake (n : Nat) (s : String) : String :=
  ⟨s.data.take n⟩

/-! ## The tag-removal regex of fetch_nalco_news.py

`re.sub("<[^<]+?>", "", desc_raw)` removes every non-overlapping, leftmost,
lazily-matched occurrence of `<`, one or more non-`<` characters, `>`.
`tagBody cs` scans the text after an opening `<`: it succeeds at the first
`>` found before any `<` (the body must be non-empty), returning the rest of
the input after the match. -/

def tagBody : List Char → Option (List Char)
  | [] => none
  | d :: ds => if d = '>' then some ds else if d = '<' then none else tagBody ds

/-- Attempt to match `[^<]+?>` directly after an opening `<`: the first body
character must exist and not be `<`; then scan with `tagBody`. -/
def scanTag : List Char → Option (List Char)
  | [] => none
  | c :: rest => if c = '<' then none else if c = '>' then tagBody rest else tagBody (c :: rest)

/-- One pass of `re.sub("<[^<]+?>", "", s)` with explicit fuel (the fuel is
an upper bound on the number of steps; each step consumes at least one input
character, so `l.length` fuel computes the full substitution). -/
def stripTagsFuel : Nat → List Char → List Char
  | 0, l => l
  | _, [] => []
  | n + 1, c :: rest =>
    if c = '<' then
      match scanTag rest with
      | some rest2 => stripTagsFuel n rest2
      | none => c :: stripTagsFuel n rest
    else c :: stripTagsFuel n rest

/-- Model of `re.sub("<[^<]+?>", "", s)` on code points. -/
def stripTagsChars (l : List Char) : List Char :=
  stripTagsFuel l.length l

/-- Model of `re.sub("<[^<]+?>", "", s)` on strings. -/
def stripTagsStr (s : String) : String :=
  ⟨stripTagsChars s.data⟩

/-- True when the string still contains a match of the tag pattern
`<[^<]+?>` (one substitution pass would change it). -/
def hasTagMatch (s : String) : Bool :=
  !(stripTagsChars s.data == s.data)

/-- Model of `s.replace("\xa0", " ")`: the pattern is a single character,
so the replacement is a character map. -/
def nbspFix (s : String) : String :=
  ⟨s.data.map (fun c => if c = Char.ofNat 160 then ' ' else c)⟩

/-! ## Python datetime model

The scripts build `datetime` values three ways: `strptime("%d/%m/%Y")`
(naive midnight), `parsedate_to_datetime` on RFC-2822 feed dates (possibly
timezone-aware with an arbitrary offset), and
`datetime(*t[:6], tzinfo=timezone.utc)` / `datetime.now(timezone.utc)`
(UTC-aware).  `tz = none` is a naive datetime; `tz = some z` is aware with
a UTC offset of `z` minutes. -/

structure PyDateTime where
  year : Nat
  month : Nat
  day : Nat
  hour : Nat
  minute : Nat
  second : Nat
  microsecond : Nat
  tz : Option Int
deriving DecidableEq

/-- Decimal digits of `n`, zero padded on the left to exactly `k` characters
(the low digit last), as `datetime.isoformat` prints each field. -/
def padDigits : Nat → Nat → List Char
  | 0, _ => []
  | k + 1, n => padDigits k (n / 10) ++ [Nat.digitChar (n % 10)]

/-- The `±HH:MM` UTC-offset suffix `datetime.isoformat` prints for an aware
datetime with whole-minute offset `z`; naive datetimes print nothing. -/
def tzSuffixChars : Option Int → List Char
  | none => []
  | some z =>
    (if z < 0 then '-' else '+') :: (padDigits 2 (z.natAbs / 60) ++ ':' :: padDigits 2 (z.natAbs % 60))

/-- The `.ffffff` fractional-second block, printed only when the
microsecond field is nonzero, exactly as `datetime.isoformat` does. -/
def fracChars (micro : Nat) : List Char :=
  if micro = 0 then [] else '.' :: padDigits 6 micro

/-- Code points of `datetime.isoformat()`:
`YYYY-MM-DDTHH:MM:SS[.ffffff][±HH:MM]`. -/
def isoChars (dt : PyDateTime) : List Char :=
  padDigits 4 dt.year ++ '-' :: (padDigits 2 dt.month ++ '-' :: (padDigits 2 dt.day ++
    'T' :: (padDigits 2 dt.hour ++ ':' :: (padDigits 2 dt.minute ++ ':' :: (padDigits 2 dt.second ++
      (fracChars dt.microsecond ++ tzSuffixChars dt.tz))))))

/-- Model of `datetime.isoformat()`. -/
def pyIso (dt : PyDateTime) : String :=
  ⟨isoChars dt⟩

/-- Model of `datetime.date().isoformat()`: `YYYY-MM-DD`. -/
def dateIso (dt : PyDateTime) : String :=
  ⟨padDigits 4 dt.year ++ '-' :: (padDigits 2 dt.month ++ '-' :: padDigits 2 dt.day)⟩

/-- Gregorian leap-year test, as `calendar.isleap` / the `datetime` module. -/
def isLeap (y : Nat) : Bool :=
  y % 4 = 0 && (y % 100 != 0 || y % 400 = 0)

/-- Days in each month of a non-leap year (month numbered from 1);
out-of-range months give 0. -/
def monthLen : Nat → Nat
  | 1 => 31 | 2 => 28 | 3 => 31 | 4 => 30 | 5 => 31 | 6 => 30
  | 7 => 31 | 8 => 31 | 9 => 30 | 10 => 31 | 11 => 30 | 12 => 31
  | _ => 0

/-- Days in month `m` of year `y`, with the February leap correction:
exactly the validity bound enforced by the `datetime` constructor. -/
def daysInMonth (y m : Nat) : Nat :=
  if m = 2 && isLeap y then 29 else monthLen m

/-- Cumulative days before month `m` in a non-leap year (`dbmTable 13 = 365`
closes the year). -/
def dbmTable : Nat → Nat
  | 1 => 0 | 2 => 31 | 3 => 59 | 4 => 90 | 5 => 120 | 6 => 151 | 7 => 181
  | 8 => 212 | 9 => 243 | 10 => 273 | 11 => 304 | 12 => 334 | 13 => 365
  | _ => 0

/-- Days before month `m` of year `y`, including the leap-day correction
after February. -/
def daysBeforeMonth (y m : Nat) : Nat :=
  dbmTable m + (if 2 < m && isLeap y then 1 else 0)

/-- Days before January 1 of year `y` counted from the proleptic-Gregorian
epoch (year 1), i.e. `datetime.toordinal` minus the day-of-year part. -/
def daysBeforeYear (y : Nat) : Nat :=
  365 * (y - 1) + (y - 1) / 4 + (y - 1) / 400 - (y - 1) / 100

/-- Model of `datetime.toordinal()`: day count of a calendar date from the
proleptic-Gregorian epoch, Jan 1 of year 1 being day 1. -/
def pyOrdinal (y m d : Nat) : Nat :=
  daysBeforeYear y + daysBeforeMonth y m + d

/-- Microseconds of the naive (wall-clock) part of a datetime since the
epoch of `pyOrdinal`. -/
def naiveMicros (dt : PyDateTime) : Nat :=
  pyOrdinal dt.year dt.month dt.day * 86400000000 +
    (((dt.hour * 60 + dt.minute) * 60 + dt.second) * 1000000 + dt.microsecond)

/-- The instant an aware datetime denotes, in microseconds UTC (naive
wall-clock microseconds minus the UTC offset).  For a naive datetime the
offset contribution is zero; chronological comparison is only meaningful
between aware values. -/
def toInstant (dt : PyDateTime) : Int :=
  (naiveMicros dt : Int) - (dt.tz.getD 0) * 60000000

/-- Field validity exactly as enforced by the Python `datetime` constructor
(`strptime` and `datetime(...)` raise outside these bounds). -/
def ValidDT (dt : PyDateTime) : Prop :=
  1 ≤ dt.year ∧ dt.year ≤ 9999 ∧ 1 ≤ dt.month ∧ dt.month ≤ 12 ∧
    1 ≤ dt.day ∧ dt.day ≤ daysInMonth dt.year dt.month ∧
    dt.hour < 24 ∧ dt.minute < 60 ∧ dt.second < 60 ∧ dt.microsecond < 1000000

instance (dt : PyDateTime) : Decidable (ValidDT dt) := by
  unfold ValidDT; infer_instance

/-! ## urllib.parse.quote_plus (used by fetch_psu_news.py) -/

/-- Hexadecimal digit characters, upper case as `urllib.parse.quote`
prints them. -/
def hexDigit (n : Nat) : Char :=
  if n < 10 then Nat.digitChar n else Char.ofNat (55 + n)

/-- UTF-8 bytes of one code point. -/
def utf8Bytes (n : Nat) : List Nat :=
  if n < 128 then [n]
  else if n < 2048 then [192 + n / 64, 128 + n % 64]
  else if n < 65536 then [224 + n / 4096, 128 + n / 64 % 64, 128 + n % 64]
  else [240 + n / 262144, 128 + n / 4096 % 64, 128 + n / 64 % 64, 128 + n % 64]

/-- Percent-encoding of one byte. -/
def pctByte (n : Nat) : List Char :=
  ['%', hexDigit (n / 16), hexDigit (n % 16)]

/-- Model of `urllib.parse.quote_plus` with default `safe`: spaces become
`+`, ASCII alphanumerics and `_.-~` pass through, everything else is
percent-encoded from its UTF-8 bytes. -/
def quotePlus (s : String) : String :=
  ⟨s.data.flatMap (fun c =>
    if c = ' ' then ['+']
    else if c.isAlphanum || c = '_' || c = '.' || c = '-' || c = '~' then [c]
    else (utf8Bytes c.toNat).flatMap pctByte)⟩

/-! ## Shared pipeline combinators -/

/-- Substring-prefix test on code points. -/
def listStartsWith : List Char → List Char → Bool
  | [], _ => true
  | _ :: _, [] => false
  | a :: as, b :: bs => a = b && listStartsWith as bs

/-- Does `pat` occur as a contiguous run inside `l`? -/
def listContainsInfix (pat : List Char) : List Char → Bool
  | [] => listStartsWith pat []
  | l@(_ :: t) => listStartsWith pat l || listContainsInfix pat t

/-- Model of Python `pat in s` on strings. -/
def strContains (s pat : String) : Bool :=
  listContainsInfix pat.data s.data

/-- Stable insertion step of a descending sort by a string key: walk past
elements whose key is strictly greater, insert before the first element
whose key is less than or equal (so earlier-arrived elements with an equal
key stay in front — the order `sorted(..., reverse=True)` produces). -/
def insDesc {α : Type} (key : α → String) (a : α) : List α → List α
  | [] => [a]
  | b :: l => if strLtB (key a) (key b) then b :: insDesc key a l else a :: b :: l

/-- Stable descending sort by a string key.  Python `list.sort` /
`sorted` are stable, and with `reverse=True` compare keys with string `<`
reversed; a stable sort's output is determined by the comparator and
stability, so this insertion sort computes exactly the same list. -/
def sortDesc {α : Type} (key : α → String) : List α → List α
  | [] => []
  | a :: l => insDesc key a (sortDesc key l)

/-- The descending-sortedness relation produced by
`sorted(key=..., reverse=True)`: an earlier element's key is never
strictly below a later element's key. -/
def DescBy {α : Type} (key : α → String) (l : List α) : Prop :=
  l.Pairwise (fun x y => strLtB (key x) (key y) = false)

/-- First-writer-wins accumulation with an explicit seen-key list: the
behaviour of `if k in d: continue; d[k] = v` over a Python dict, whose
value order is insertion order. -/
def firstWinsAux {α : Type} (key : α → String) : List String → List α → List α
  | _, [] => []
  | seen, x :: xs =>
    if key x ∈ seen then firstWinsAux key seen xs
    else x :: firstWinsAux key (key x :: seen) xs

/-- First-writer-wins accumulation keyed by a string, starting empty. -/
def firstWins {α : Type} (key : α → String) (l : List α) : List α :=
  firstWinsAux key [] l

/-! ## fetch_nalco_news.py -/

def NALCO_PRESS_URL : String := "https://nalcoindia.com/news-media/press-releases/"

def GOOGLE_NEWS_RSS : String :=
  "https://news.google.com/rss/search?q=National+Aluminium+Company+Limited+NALCO&hl=en-IN&gl=IN&ceid=IN:en"

/-- Canonical item dict of fetch_nalco_news.py.  `date` and `timestamp`
are `Option` because the script leaves them as Python `None` when no date
was parsed. -/
structure NalcoItem where
  source : String
  title : String
  url : String
  date : Option String
  timestamp : Option String
  summary : String
deriving DecidableEq

/-- One `h3` heading of the press-releases listing as BeautifulSoup
exposes it to the script: the first contained link's `href` (if any), that
link's text via `get_text(strip=True)`, and the heading's parent-container
text via `get_text(" ", strip=True)`. -/
structure PressBlock where
  href : Option String
  linkText : String
  containerText : String
deriving DecidableEq

/-- Numeric value of a decimal digit character. -/
def digitVal (c : Char) : Nat := c.toNat - 48

/-- Try to match the regex `\d{2}/\d{2}/\d{4}` at the head of the text,
returning (day, month, year). -/
def matchDDMMYYYY : List Char → Option (Nat × Nat × Nat)
  | d1 :: d2 :: c1 :: m1 :: m2 :: c2 :: y1 :: y2 :: y3 :: y4 :: _ =>
    if d1.isDigit && d2.isDigit && c1 = '/' && m1.isDigit && m2.isDigit && c2 = '/' &&
        y1.isDigit && y2.isDigit && y3.isDigit && y4.isDigit then
      some (digitVal d1 * 10 + digitVal d2, digitVal m1 * 10 + digitVal m2,
        ((digitVal y1 * 10 + digitVal y2) * 10 + digitVal y3) * 10 + digitVal y4)
    else none
  | _ => none

/-- Leftmost match of `re.search(r"(\d{2}/\d{2}/\d{4})", text)`. -/
def findDDMMYYYY : List Char → Option (Nat × Nat × Nat)
  | [] => none
  | l@(_ :: t) =>
    match matchDDMMYYYY l with
    | some r => some r
    | none => findDDMMYYYY t

/-- Model of `datetime.strptime(s, "%d/%m/%Y")` on an already-matched
`dd/mm/yyyy` triple: the `datetime` constructor validates the field ranges
and raises (here: `none`, since the script catches the exception) when the
day does not exist in that month. -/
def strptimeDMY (d m y : Nat) : Option PyDateTime :=
  if 1 ≤ y && y ≤ 9999 && 1 ≤ m && m ≤ 12 && 1 ≤ d && d ≤ daysInMonth y m then
    some ⟨y, m, d, 0, 0, 0, 0, none⟩
  else none

/-- The press-release date the script extracts from the container text:
first `dd/mm/yyyy` occurrence, then `strptime`, errors swallowed. -/
def pressDate (containerText : String) : Option PyDateTime :=
  match findDDMMYYYY containerText.data with
  | none => none
  | some (d, m, y) => strptimeDMY d m y

/-- The summary of one press release: `""` when the detail-page fetch
failed (`none`) or the page has no `<p>` (`some none`); otherwise the first
paragraph's text truncated to 300 characters. -/
def pressSummary (detail : Option (Option String)) : String :=
  match detail with
  | none => ""
  | some none => ""
  | some (some t) => pyTake 300 t

/-- Normalization of one press-listing heading, `none` when the heading has
no link or the link path lacks the `/pre-rel/` marker (the candidate is
dropped).  `uj` is `urllib.parse.urljoin`, `detail` the per-item
detail-page fetch capability. -/
def pressBlockItem (uj : String → String → String)
    (detail : String → Option (Option String)) (b : PressBlock) : Option NalcoItem :=
  match b.href with
  | none => none
  | some href =>
    if strContains href "/pre-rel/" then
      let url := uj NALCO_PRESS_URL href
      let dt := pressDate b.containerText
      some { source := "NALCO Press Release", title := b.linkText, url := url,
             date := dt.map dateIso, timestamp := dt.map pyIso,
             summary := pressSummary (detail url) }
    else none

/-- Model of `fetch_nalco_press()`: `resp = none` is a failed
`safe_request` (timeout, non-2xx, any exception), in which case the adapter
returns the empty list. -/
def fetch_nalco_press (resp : Option (List PressBlock))
    (detail : String → Option (Option String)) (uj : String → String → String) : List NalcoItem :=
  match resp with
  | none => []
  | some blocks => blocks.filterMap (pressBlockItem uj detail)

/-- One `<item>` of the Google News RSS channel, fields as
`ElementTree.findtext` returns them (`none` = element absent). -/
structure RssEntry where
  title : Option String
  link : Option String
  pubDate : Option String
  description : Option String
deriving DecidableEq

/-- The `pubDate` handling of `fetch_google_news`: the guard
`if pub_date_raw:` skips `None` and the empty string; otherwise
`parsedate_to_datetime` (oracle `pd`) is tried, exceptions and a `None`
result both leaving the datetime unset. -/
def parseTs (pd : String → Option PyDateTime) : Option String → Option PyDateTime
  | none => none
  | some p => if p = "" then none else pd p

/-- Normalization of one Google News RSS entry by fetch_nalco_news.py. -/
def googleEntryItem (pd : String → Option PyDateTime) (e : RssEntry) : NalcoItem :=
  let dt := parseTs pd e.pubDate
  { source := "Google News",
    title := pyStrip (e.title.getD ""),
    url := pyStrip (e.link.getD ""),
    date := dt.map dateIso,
    timestamp := dt.map pyIso,
    summary := pyTake 300 (pyStrip (nbspFix (stripTagsStr (e.description.getD "")))) }

/-- Model of `fetch_google_news()`: `resp = none` is a failed request,
`some none` a failed `ET.fromstring` parse or a missing `channel` element;
both return the empty list. -/
def fetch_google_news (resp : Option (Option (List RssEntry)))
    (pd : String → Option PyDateTime) : List NalcoItem :=
  match resp with
  | none => []
  | some none => []
  | some (some entries) => entries.map (googleEntryItem pd)

/-- The deduplication key of `dedupe_items`:
`(it.get("url") or "").strip()`. -/
def nalcoKeyOf (it : NalcoItem) : String := pyStrip it.url

/-- Seen-set loop of `dedupe_items`: empty keys are always kept, a seen key
is discarded, a fresh key is kept and recorded. -/
def dedupeAux : List String → List NalcoItem → List NalcoItem
  | _, [] => []
  | seen, it :: rest =>
    if nalcoKeyOf it = "" then it :: dedupeAux seen rest
    else if nalcoKeyOf it ∈ seen then dedupeAux seen rest
    else it :: dedupeAux (nalcoKeyOf it :: seen) rest

/-- Model of `dedupe_items`. -/
def dedupe_items (items : List NalcoItem) : List NalcoItem :=
  dedupeAux [] items

/-- The sort key of fetch_nalco_news.py `main()`:
`it.get("timestamp") or ""`. -/
def sortKeyNalco (it : NalcoItem) : String := it.timestamp.getD ""

/-- The item list `main()` of fetch_nalco_news.py writes: press items then
Google items, deduplicated, sorted by timestamp descending, first 40. -/
def nalcoMainItems (press : Option (List PressBlock)) (google : Option (Option (List RssEntry)))
    (pd : String → Option PyDateTime) (detail : String → Option (Option String))
    (uj : String → String → String) : List NalcoItem :=
  (sortDesc sortKeyNalco (dedupe_items (fetch_nalco_press press detail uj ++ fetch_google_news google pd))).take 40

/-- Full run of fetch_nalco_news.py `main()` with the two filesystem
effects (`os.makedirs`, `open`/`json.dump`) given as outcomes; their errors
are the only uncaught ones, so the run result is an `Except`. -/
def nalcoMainRun (press : Option (List PressBlock)) (google : Option (Option (List RssEntry)))
    (pd : String → Option PyDateTime) (detail : String → Option (Option String))
    (uj : String → String → String) (mkdirRes writeRes : Except String Unit) : Except String Nat :=
  mkdirRes.bind (fun _ => writeRes.map (fun _ => (nalcoMainItems press google pd detail uj).length))

/-- Did the run complete without an uncaught exception? -/
def exceptOk {α : Type} : Except String α → Bool
  | .ok _ => true
  | .error _ => false

/-! ## fetch_local_news.py -/

/-- A well-formed feedparser entry as the dict pipelines process it:
the `title` and `link` attributes are present, and `published_parsed` is
either absent (`none`) or a present, truthy parsed time tuple (first six
fields).  Entries outside this shape make the dict scripts raise — and
fetch_local_news.py's `hasattr`-only date guard, unlike
fetch_psu_news.py's truthiness guard, also raises on a present-but-`None`
`published_parsed` — so the raw attribute view, including those entries,
is modelled separately by `FpRawEntry` below. -/
structure FpEntry where
  title : String
  link : String
  published_parsed : Option (Nat × Nat × Nat × Nat × Nat × Nat)
deriving DecidableEq

/-- `datetime(*t[:6], tzinfo=timezone.utc)`: a UTC-aware datetime from the
first six fields of a feedparser time tuple. -/
def tupleDT (t : Nat × Nat × Nat × Nat × Nat × Nat) : PyDateTime :=
  ⟨t.1, t.2.1, t.2.2.1, t.2.2.2.1, t.2.2.2.2.1, t.2.2.2.2.2, 0, some 0⟩

/-- Persisted item of fetch_local_news.py. -/
structure LocalItem where
  title : String
  url : String
  date : String
deriving DecidableEq

def KEYWORDS : List String :=
  ["Damanjodi", "Similiguda", "Sunabeda", "Koraput", "Jeypore", "Pottangi",
   "NALCO Damanjodi", "HAL Sunabeda", "LIC Koraput", "Laxmipur Koraput", "Rayagada Odisha"]

def LOCAL_MAX_ITEMS : Nat := 25

/-- The f-string search URL of fetch_local_news.py (the keyword is
interpolated raw, without quoting). -/
def localFeedUrl (key : String) : String :=
  "https://news.google.com/rss/search?q=" ++ key ++ "&hl=en-IN&gl=IN&ceid=IN:en"

/-- Normalization of one entry by fetch_local_news.py: title and link are
taken verbatim; the date is the entry's parsed time as a UTC datetime, or
`now` when `published_parsed` is absent. -/
def localEntryItem (now : PyDateTime) (e : FpEntry) : LocalItem :=
  { title := e.title, url := e.link,
    date := pyIso (match e.published_parsed with | some t => tupleDT t | none => now) }

/-- All entries of the run in arrival order: the eleven keyword feeds are
iterated in configuration order. -/
def localAllEntries (fetch : String → List FpEntry) : List FpEntry :=
  KEYWORDS.flatMap (fun k => fetch (localFeedUrl k))

/-- The dict `all_items` of fetch_local_news.py in insertion order: keyed
by the raw entry link, first writer wins.  The item's `url` equals the raw
link, so keying by `url` is the same map the script builds. -/
def localDedupedItems (fetch : String → List FpEntry) (now : PyDateTime) : List LocalItem :=
  firstWins (fun it => it.url) ((localAllEntries fetch).map (localEntryItem now))

/-- The item list fetch_local_news.py writes: deduplicated values sorted by
`date` descending, first 25. -/
def localFinalItems (fetch : String → List FpEntry) (now : PyDateTime) : List LocalItem :=
  (sortDesc (fun it : LocalItem => it.date) (localDedupedItems fetch now)).take LOCAL_MAX_ITEMS

/-- The write stage of fetch_local_news.py on well-formed entries, with
the final file write given as an outcome (the script has no mkdir).  This
is NOT the whole failure story of the script: its per-entry loop has
uncaught exception paths on malformed entries (TypeError on a
present-but-`None` `published_parsed`, AttributeError on a missing
`link`/`title`), modelled by `localRunE` below. -/
def localRun (fetch : String → List FpEntry) (now : PyDateTime)
    (writeRes : Except String Unit) : Except String Nat :=
  writeRes.map (fun _ => (localFinalItems fetch now).length)

/-! ## fetch_psu_news.py -/

/-- Persisted item of fetch_psu_news.py. -/
structure PsuItem where
  title : String
  url : String
  date : String
  category : String
  source : String
  source_type : String
deriving DecidableEq

def GOOGLE_FEEDS : List (String × List String) :=
  [("PSU", ["NALCO PSU", "NTPC PSU", "SAIL PSU", "ONGC PSU"]),
   ("TECH", ["renewable energy technology", "AI in power sector", "EV battery technology"]),
   ("SAFETY", ["industrial safety India", "electrical safety industry"]),
   ("INDUSTRY", ["mining industry India", "aluminium industry India"])]

def OFFICIAL_RSS : List (String × List (String × String)) :=
  [("PSU", [("PIB", "https://pib.gov.in/RssMain.aspx")]),
   ("INDUSTRY", [("Ministry of Mines", "https://mines.gov.in/rss.xml"),
                 ("Ministry of Power", "https://powermin.gov.in/rss.xml")])]

def PSU_MAX_ITEMS : Nat := 40

/-- The quoted search URL of fetch_psu_news.py. -/
def psuFeedUrl (key : String) : String :=
  "https://news.google.com/rss/search?q=" ++ quotePlus key ++ "&hl=en-IN&gl=IN&ceid=IN:en"

/-- Normalization of one Google-feed entry by fetch_psu_news.py. -/
def psuGoogleEntryItem (cat : String) (now : PyDateTime) (e : FpEntry) : PsuItem :=
  { title := pyStrip e.title, url := pyStrip e.link,
    date := pyIso (match e.published_parsed with | some t => tupleDT t | none => now),
    category := cat, source := "Google News", source_type := "google" }

/-- Normalization of one official-RSS entry by fetch_psu_news.py. -/
def psuOfficialEntryItem (cat srcName : String) (now : PyDateTime) (e : FpEntry) : PsuItem :=
  { title := pyStrip e.title, url := pyStrip e.link,
    date := pyIso (match e.published_parsed with | some t => tupleDT t | none => now),
    category := cat, source := srcName, source_type := "official" }

/-- All Google-feed candidates of a run, in configuration order (the first
loop of the script). -/
def psuGoogleItems (fetch : String → List FpEntry) (now : PyDateTime) : List PsuItem :=
  GOOGLE_FEEDS.flatMap (fun cfg => cfg.2.flatMap (fun k =>
    (fetch (psuFeedUrl k)).map (psuGoogleEntryItem cfg.1 now)))

/-- All official-RSS candidates of a run, in configuration order (the
second loop of the script). -/
def psuOfficialItems (fetch : String → List FpEntry) (now : PyDateTime) : List PsuItem :=
  OFFICIAL_RSS.flatMap (fun cfg => cfg.2.flatMap (fun sf =>
    (fetch sf.2).map (psuOfficialEntryItem cfg.1 sf.1 now)))

/-- The dict `all_items` of fetch_psu_news.py in insertion order: keyed by
the stripped link, which is each item's `url`, Google loop first. -/
def psuDedupedItems (fetch : String → List FpEntry) (now : PyDateTime) : List PsuItem :=
  firstWins (fun it => it.url) (psuGoogleItems fetch now ++ psuOfficialItems fetch now)

/-- The item list fetch_psu_news.py writes: deduplicated values sorted by
`date` descending, first 40. -/
def psuFinalItems (fetch : String → List FpEntry) (now : PyDateTime) : List PsuItem :=
  (sortDesc (fun it : PsuItem => it.date) (psuDedupedItems fetch now)).take PSU_MAX_ITEMS

/-- The write stage of fetch_psu_news.py on well-formed entries, with the
two filesystem effects (`OUTPUT_FILE.parent.mkdir`, `open`/`json.dump`)
given as outcomes.  This is NOT the whole failure story of the script:
its entry loops raise uncaught AttributeError on entries lacking
`link`/`title`, modelled by `psuRunE` below. -/
def psuRun (fetch : String → List FpEntry) (now : PyDateTime)
    (mkdirRes writeRes : Except String Unit) : Except String Nat :=
  mkdirRes.bind (fun _ => writeRes.map (fun _ => (psuFinalItems fetch now).length))


/-! ## Raw feedparser entries and the uncaught per-entry error paths

fetch_local_news.py and fetch_psu_news.py contain no error handling of
their own.  Reading `entry.link` or `entry.title` raises AttributeError
when the attribute is absent, and fetch_local_news.py guards its date
only with `hasattr(entry, "published_parsed")`, so a present-but-`None`
`published_parsed` (feedparser's representation of an unparseable date)
reaches `datetime(*entry.published_parsed[:6], ...)` and raises
TypeError.  fetch_psu_news.py's guard additionally tests truthiness, so
the same entry falls back to `now` there.  `FpRawEntry` is the raw
attribute view (`none` = attribute absent, `published_parsed = some none`
= attribute present but `None`); the `...E` run models below propagate
these uncaught exceptions, which abort the run before any write. -/

instance decEqTimePair : DecidableEq (Nat × Nat) := instDecidableEqProd

instance decEqTimeTriple : DecidableEq (Nat × Nat × Nat) := instDecidableEqProd

instance decEqTimeQuad : DecidableEq (Nat × Nat × Nat × Nat) := instDecidableEqProd

instance decEqTimeQuint : DecidableEq (Nat × Nat × Nat × Nat × Nat) := instDecidableEqProd

instance decEqTimeTuple : DecidableEq (Nat × Nat × Nat × Nat × Nat × Nat) := instDecidableEqProd

instance decEqOptTimeTuple : DecidableEq (Option (Nat × Nat × Nat × Nat × Nat × Nat)) :=
  inferInstance

instance decEqOptOptTimeTuple : DecidableEq (Option (Option (Nat × Nat × Nat × Nat × Nat × Nat))) :=
  inferInstance

structure FpRawEntry where
  title : Option String
  link : Option String
  published_parsed : Option (Option (Nat × Nat × Nat × Nat × Nat × Nat))
deriving DecidableEq

/-- Projection of a raw entry to the well-formed view: absent `title`
and `link` default to `""`, and a present-but-`None` time tuple flattens
to absent.  On well-formed raw entries this projection is faithful to how
the scripts read the attributes. -/
def fpProj (e : FpRawEntry) : FpEntry :=
  ⟨e.title.getD "", e.link.getD "", e.published_parsed.bind id⟩

/-- The per-entry loop of fetch_local_news.py on raw entries, with the
seen-key set: `entry.link` is read first (AttributeError when absent); a
duplicate link skips the entry before any other attribute is touched;
then the `hasattr`-guarded date admits a present-but-`None` value into
`datetime(*...[:6], ...)` (TypeError); and finally `entry.title` is read
for the dict value (AttributeError when absent).  The first exception
aborts the whole run. -/
def localAccumE (now : PyDateTime) : List String → List FpRawEntry → Except String (List LocalItem)
  | _, [] => .ok []
  | seen, e :: es =>
    match e.link with
    | none => .error "AttributeError: object has no attribute link"
    | some link =>
      if link ∈ seen then localAccumE now seen es
      else
        match e.published_parsed, e.title with
        | some none, _ => .error "TypeError: argument after * must be an iterable"
        | _, none => .error "AttributeError: object has no attribute title"
        | some (some tu), some t =>
          (localAccumE now (link :: seen) es).map
            (fun rest => { title := t, url := link, date := pyIso (tupleDT tu) } :: rest)
        | none, some t =>
          (localAccumE now (link :: seen) es).map
            (fun rest => { title := t, url := link, date := pyIso now } :: rest)

/-- One provenance-tagged raw entry of a fetch_psu_news.py run. -/
structure PsuRawTagged where
  category : String
  source : String
  source_type : String
  entry : FpRawEntry
deriving DecidableEq

/-- All raw entries of a fetch_psu_news.py run with their provenance, in
iteration order: the Google loop first, then the official loop (an
exception in the Google loop therefore prevents the official loop). -/
def psuRawStream (fetch : String → List FpRawEntry) : List PsuRawTagged :=
  GOOGLE_FEEDS.flatMap (fun cfg => cfg.2.flatMap (fun k =>
    (fetch (psuFeedUrl k)).map (fun e => ⟨cfg.1, "Google News", "google", e⟩)))
  ++ OFFICIAL_RSS.flatMap (fun cfg => cfg.2.flatMap (fun sf =>
    (fetch sf.2).map (fun e => ⟨cfg.1, sf.1, "official", e⟩)))

/-- The item a fetch_psu_news.py loop builds from one tagged entry whose
`link` and `title` are present: the `hasattr(...) and
entry.published_parsed` guard sends both an absent and a
present-but-`None` tuple to `now`. -/
def psuTaggedItem (now : PyDateTime) (te : PsuRawTagged) : PsuItem :=
  { title := pyStrip (te.entry.title.getD ""), url := pyStrip (te.entry.link.getD ""),
    date := pyIso (match te.entry.published_parsed.bind id with
      | some tu => tupleDT tu
      | none => now),
    category := te.category, source := te.source, source_type := te.source_type }

/-- The two entry loops of fetch_psu_news.py on raw entries:
`entry.link.strip()` is read first (AttributeError when absent); a
duplicate key skips the entry; the truthiness-guarded date cannot raise;
`entry.title.strip()` is read last (AttributeError when absent). -/
def psuAccumE (now : PyDateTime) : List String → List PsuRawTagged → Except String (List PsuItem)
  | _, [] => .ok []
  | seen, te :: tes =>
    match te.entry.link with
    | none => .error "AttributeError: object has no attribute link"
    | some link0 =>
      if pyStrip link0 ∈ seen then psuAccumE now seen tes
      else
        match te.entry.title with
        | none => .error "AttributeError: object has no attribute title"
        | some _ =>
          (psuAccumE now (pyStrip link0 :: seen) tes).map
            (fun rest => psuTaggedItem now te :: rest)

/-- Full run of fetch_local_news.py on raw entries: the per-entry loop
may raise (uncaught TypeError or AttributeError), aborting before the
write; otherwise the snapshot-write outcome decides the run. -/
def localRunE (fetch : String → List FpRawEntry) (now : PyDateTime)
    (writeRes : Except String Unit) : Except String Nat :=
  (localAccumE now [] (KEYWORDS.flatMap (fun k => fetch (localFeedUrl k)))).bind (fun items =>
    writeRes.map (fun _ =>
      ((sortDesc (fun it : LocalItem => it.date) items).take LOCAL_MAX_ITEMS).length))

/-- Full run of fetch_psu_news.py on raw entries: the entry loops may
raise uncaught AttributeError, aborting before mkdir and the write;
otherwise those two outcomes decide the run. -/
def psuRunE (fetch : String → List FpRawEntry) (now : PyDateTime)
    (mkdirRes writeRes : Except String Unit) : Except String Nat :=
  (psuAccumE now [] (psuRawStream fetch)).bind (fun items =>
    mkdirRes.bind (fun _ => writeRes.map (fun _ =>
      ((sortDesc (fun it : PsuItem => it.date) items).take PSU_MAX_ITEMS).length)))

/-! ## Concrete fixtures

Concrete datetimes, feed entries and fetch oracles used to instantiate the
theorems below on closed inputs.  `pdFix` is `parsedate_to_datetime`
restricted to the two RFC-2822 strings that occur in the fixtures (with
their correct values: `+0530` is an offset of 330 minutes, `GMT` of 0). -/

def dtA : PyDateTime := ⟨2024, 5, 3, 23, 0, 0, 0, some 330⟩

def dtB : PyDateTime := ⟨2024, 5, 3, 20, 0, 0, 0, some 0⟩

def entryA : RssEntry :=
  ⟨some "A", some "https://a.example/1", some "Fri, 03 May 2024 23:00:00 +0530", none⟩

def entryB : RssEntry :=
  ⟨some "B", some "https://b.example/2", some "Fri, 03 May 2024 20:00:00 GMT", none⟩

def entryNoDate : RssEntry := ⟨some "t", some "https://c.example/3", none, none⟩

def entryTagDesc : RssEntry := ⟨some "t", some "https://d.example/4", none, some "<x<y>z>"⟩

def pdFix : String → Option PyDateTime := fun p =>
  if p = "Fri, 03 May 2024 23:00:00 +0530" then some dtA
  else if p = "Fri, 03 May 2024 20:00:00 GMT" then some dtB
  else none

def nowFix : PyDateTime := ⟨2024, 5, 3, 12, 0, 0, 500, some 0⟩

def itemU1 : NalcoItem := ⟨"NALCO Press Release", "T1", "https://u.example/x", none, none, ""⟩

def itemU2 : NalcoItem :=
  ⟨"Google News", "T2", "https://u.example/x", some "2024-05-01", some "2024-05-01T00:00:00", "s"⟩

def locU1 : LocalItem := ⟨"L1", "https://u.example/x", "2024-05-02T00:00:00+00:00"⟩

def locU2 : LocalItem := ⟨"L2", "https://u.example/x", "2024-05-03T00:00:00+00:00"⟩

def emptyLinkE1 : FpEntry := ⟨"a", "", none⟩

def emptyLinkE2 : FpEntry := ⟨"b", "", none⟩

def localFetchC5 : String → List FpEntry := fun _ => [emptyLinkE1, emptyLinkE2]

def wsEntry : FpEntry := ⟨" T ", " u ", none⟩

def localFetchC9 : String → List FpEntry := fun _ => [wsEntry]

def psuEntryG : FpEntry := ⟨"g", "s", some (2024, 5, 1, 10, 0, 0)⟩

def psuFetchFix : String → List FpEntry := fun _ => [psuEntryG]

def localEntryDated : FpEntry := ⟨"dated", "https://f.example/6", some (2024, 5, 2, 9, 30, 0)⟩

def localEntryUndated : FpEntry := ⟨"undated", "https://g.example/7", none⟩

def pressBlockFix : PressBlock := ⟨some "/pre-rel/p1", "P title", "Released on 03/05/2024"⟩

def pressItemFix : NalcoItem :=
  ⟨"NALCO Press Release", "P title", "/pre-rel/p1",
   some "2024-05-03", some "2024-05-03T00:00:00", "Para text"⟩

def detailFix : String → Option (Option String) := fun _ => some (some "Para text")

def ujFix : String → String → String := fun _ h => h

def badDateRaw : FpRawEntry := ⟨some "t", some "u", some none⟩

def localFetchBadDate : String → List FpRawEntry := fun _ => [badDateRaw]

def noLinkRaw : FpRawEntry := ⟨some "t", none, none⟩

def psuFetchNoLink : String → List FpRawEntry := fun _ => [noLinkRaw]

def goodRaw : FpRawEntry := ⟨some "t", some "u", some (some (2024, 5, 1, 10, 0, 0))⟩

def rawFetchGood : String → List FpRawEntry := fun _ => [goodRaw]

/-! ## Order facts about the Python string comparison -/

lemma charListLt_irrefl (l : List Char) : charListLt l l = false := by
  induction l with
  | nil => rfl
  | cons c t ih =>
    rw [charListLt, if_neg (lt_irrefl c), if_neg (lt_irrefl c)]
    exact ih

lemma charListLt_asymm : ∀ {a b : List Char}, charListLt a b = true → charListLt b a = false
  | [], [], h => by simp [charListLt] at h
  | [], _ :: _, _ => rfl
  | _ :: _, [], h => by simp [charListLt] at h
  | x :: xs, y :: ys, h => by
    rw [charListLt] at h
    rw [charListLt]
    by_cases hxy : x < y
    · rw [if_neg (lt_asymm hxy), if_pos hxy]
    · rw [if_neg hxy] at h
      by_cases hyx : y < x
      · rw [if_pos hyx] at h
        exact absurd h (by simp)
      · rw [if_neg hyx] at h
        rw [if_neg hyx, if_neg hxy]
        exact charListLt_asymm h

lemma charListLt_trans : ∀ {a b c : List Char},
    charListLt a b = true → charListLt b c = true → charListLt a c = true
  | [], b, c, h1, h2 => by
    cases c with
    | nil => cases b <;> simp [charListLt] at h2
    | cons z zs => rfl
  | _ :: _, [], _, h1, _ => by simp [charListLt] at h1
  | _ :: _, _ :: _, [], _, h2 => by simp [charListLt] at h2
  | x :: xs, y :: ys, z :: zs, h1, h2 => by
    rw [charListLt] at h1 h2
    rw [charListLt]
    by_cases hxy : x < y
    · by_cases hyz : y < z
      · rw [if_pos (lt_trans hxy hyz)]
      · rw [if_neg hyz] at h2
        by_cases hzy : z < y
        · rw [if_pos hzy] at h2
          exact absurd h2 (by simp)
        · have hyez : y = z := le_antisymm (not_lt.mp hzy) (not_lt.mp hyz)
          rw [if_pos (hyez ▸ hxy)]
    · rw [if_neg hxy] at h1
      by_cases hyx : y < x
      · rw [if_pos hyx] at h1
        exact absurd h1 (by simp)
      · rw [if_neg hyx] at h1
        have hxey : x = y := le_antisymm (not_lt.mp hyx) (not_lt.mp hxy)
        subst hxey
        by_cases hxz : x < z
        · rw [if_pos hxz]
        · rw [if_neg hxz] at h2 ⊢
          by_cases hzx : z < x
          · rw [if_pos hzx] at h2
            exact absurd h2 (by simp)
          · rw [if_neg hzx] at h2 ⊢
            exact charListLt_trans h1 h2

lemma charListLt_connex : ∀ {a b : List Char},
    charListLt a b = false → charListLt b a = false → a = b
  | [], [], _, _ => rfl
  | [], _ :: _, h1, _ => by simp [charListLt] at h1
  | _ :: _, [], _, h2 => by simp [charListLt] at h2
  | x :: xs, y :: ys, h1, h2 => by
    rw [charListLt] at h1 h2
    by_cases hxy : x < y
    · rw [if_pos hxy] at h1
      exact absurd h1 (by simp)
    · by_cases hyx : y < x
      · rw [if_pos hyx] at h2
        exact absurd h2 (by simp)
      · rw [if_neg hxy, if_neg hyx] at h1
        rw [if_neg hyx, if_neg hxy] at h2
        have hxey : x = y := le_antisymm (not_lt.mp hyx) (not_lt.mp hxy)
        rw [hxey, charListLt_connex h1 h2]

lemma charListLt_false_trans {a b c : List Char}
    (h1 : charListLt a b = false) (h2 : charListLt b c = false) : charListLt a c = false := by
  by_contra hcon
  have hac : charListLt a c = true := by
    cases hval : charListLt a c
    · exact absurd hval hcon
    · rfl
  by_cases hba : charListLt b a = true
  · have := charListLt_trans hba hac
    rw [this] at h2
    exact absurd h2 (by simp)
  · have hba2 : charListLt b a = false := by
      cases hval : charListLt b a
      · rfl
      · exact absurd hval hba
    have := charListLt_connex h1 hba2
    subst this
    rw [hac] at h2
    exact absurd h2 (by simp)

lemma strLtB_asymm {s t : String} (h : strLtB s t = true) : strLtB t s = false :=
  charListLt_asymm h

lemma strLtB_false_trans {s t u : String}
    (h1 : strLtB s t = false) (h2 : strLtB t u = false) : strLtB s u = false :=
  charListLt_false_trans h1 h2

lemma strLtB_empty_right (s : String) : strLtB s "" = false := by
  cases hd : s.data with
  | nil => simp [strLtB, hd, charListLt]
  | cons c t => simp [strLtB, hd, charListLt]

/-! ## Sort facts -/

lemma insDesc_perm {α : Type} (key : α → String) (a : α) (l : List α) :
    (insDesc key a l).Perm (a :: l) := by
  induction l with
  | nil => exact List.Perm.refl _
  | cons b t ih =>
    rw [insDesc]
    by_cases h : strLtB (key a) (key b) = true
    · rw [if_pos h]
      exact (ih.cons b).trans (List.Perm.swap a b t)
    · rw [if_neg h]

lemma sortDesc_perm {α : Type} (key : α → String) (l : List α) :
    (sortDesc key l).Perm l := by
  induction l with
  | nil => exact List.Perm.refl _
  | cons a t ih =>
    rw [sortDesc]
    exact (insDesc_perm key a (sortDesc key t)).trans (ih.cons a)

lemma mem_sortDesc {α : Type} {key : α → String} {l : List α} {x : α} :
    x ∈ sortDesc key l ↔ x ∈ l :=
  (sortDesc_perm key l).mem_iff

lemma length_sortDesc {α : Type} (key : α → String) (l : List α) :
    (sortDesc key l).length = l.length :=
  (sortDesc_perm key l).length_eq

lemma insDesc_descBy {α : Type} {key : α → String} (a : α) {l : List α}
    (h : DescBy key l) : DescBy key (insDesc key a l) := by
  induction l with
  | nil => simp [DescBy, insDesc]
  | cons b t ih =>
    rcases (List.pairwise_cons.mp h) with ⟨hb, ht⟩
    rw [insDesc]
    by_cases hab : strLtB (key a) (key b) = true
    · rw [if_pos hab]
      refine List.pairwise_cons.mpr ⟨?_, ih ht⟩
      intro y hy
      rcases List.mem_cons.mp ((insDesc_perm key a t).mem_iff.mp hy) with hya | hyt
      · exact hya ▸ strLtB_asymm hab
      · exact hb y hyt
    · rw [if_neg hab]
      have hab2 : strLtB (key a) (key b) = false := by
        cases hval : strLtB (key a) (key b)
        · rfl
        · exact absurd hval hab
      refine List.pairwise_cons.mpr ⟨?_, h⟩
      intro y hy
      rcases List.mem_cons.mp hy with hyb | hyt
      · exact hyb ▸ hab2
      · exact strLtB_false_trans hab2 (hb y hyt)

lemma sortDesc_descBy {α : Type} (key : α → String) (l : List α) :
    DescBy key (sortDesc key l) := by
  induction l with
  | nil => simp [DescBy, sortDesc]
  | cons a t ih =>
    rw [sortDesc]
    exact insDesc_descBy a ih

lemma take_descBy {α : Type} {key : α → String} {l : List α} (n : Nat)
    (h : DescBy key l) : DescBy key (l.take n) :=
  List.Pairwise.sublist (List.take_sublist n l) h

/-! ## First-writer-wins facts -/

lemma firstWinsAux_filter_seen {α : Type} (key : α → String) (k : String) :
    ∀ (seen : List String) (l : List α), k ∈ seen →
      (firstWinsAux key seen l).filter (fun x => key x == k) = []
  | _, [], _ => rfl
  | seen, x :: xs, h => by
    rw [firstWinsAux]
    by_cases hx : key x ∈ seen
    · rw [if_pos hx]
      exact firstWinsAux_filter_seen key k seen xs h
    · rw [if_neg hx]
      have hne : (key x == k) = false := by
        refine beq_eq_false_iff_ne.mpr (fun he => hx ?_)
        exact he ▸ h
      rw [List.filter_cons, hne]
      simp only [Bool.false_eq_true, if_false]
      exact firstWinsAux_filter_seen key k (key x :: seen) xs (List.mem_cons_of_mem _ h)

lemma firstWinsAux_filter_new {α : Type} (key : α → String) (k : String) :
    ∀ (seen : List String) (l : List α), k ∉ seen →
      (firstWinsAux key seen l).filter (fun x => key x == k) =
        (l.filter (fun x => key x == k)).take 1
  | _, [], _ => rfl
  | seen, x :: xs, h => by
    rw [firstWinsAux]
    by_cases hx : key x ∈ seen
    · rw [if_pos hx]
      have hne : (key x == k) = false :=
        beq_eq_false_iff_ne.mpr (fun he => h (he ▸ hx))
      rw [List.filter_cons, hne]
      simp only [Bool.false_eq_true, if_false]
      exact firstWinsAux_filter_new key k seen xs h
    · rw [if_neg hx]
      by_cases he : key x = k
      · have heq : (key x == k) = true := beq_iff_eq.mpr he
        rw [List.filter_cons, List.filter_cons, heq]
        simp only [if_true]
        rw [firstWinsAux_filter_seen key k (key x :: seen) xs (he ▸ List.mem_cons_self _ _)]
        rfl
      · have hne : (key x == k) = false := beq_eq_false_iff_ne.mpr he
        rw [List.filter_cons, List.filter_cons, hne]
        simp only [Bool.false_eq_true, if_false]
        refine firstWinsAux_filter_new key k (key x :: seen) xs ?_
        intro hmem
        rcases List.mem_cons.mp hmem with hk | hk
        · exact he hk.symm
        · exact h hk

/-- First-writer-wins is exactly "keep the first record of each key": the
records of any key in the accumulated dict are the first such record of the
arrival stream. -/
lemma firstWins_filter {α : Type} (key : α → String) (l : List α) (k : String) :
    (firstWins key l).filter (fun x => key x == k) =
      (l.filter (fun x => key x == k)).take 1 :=
  firstWinsAux_filter_new key k [] l (by simp)

/-! ## dedupe_items facts -/

lemma dedupeAux_filter_seen (k : String) (hk : k ≠ "") :
    ∀ (seen : List String) (l : List NalcoItem), k ∈ seen →
      (dedupeAux seen l).filter (fun it => nalcoKeyOf it == k) = []
  | _, [], _ => rfl
  | seen, it :: rest, h => by
    rw [dedupeAux]
    by_cases h0 : nalcoKeyOf it = ""
    · rw [if_pos h0]
      have hne : (nalcoKeyOf it == k) = false :=
        beq_eq_false_iff_ne.mpr (fun he => hk (he ▸ h0))
      rw [List.filter_cons, hne]
      simp only [Bool.false_eq_true, if_false]
      exact dedupeAux_filter_seen k hk seen rest h
    · rw [if_neg h0]
      by_cases hs : nalcoKeyOf it ∈ seen
      · rw [if_pos hs]
        exact dedupeAux_filter_seen k hk seen rest h
      · rw [if_neg hs]
        have hne : (nalcoKeyOf it == k) = false :=
          beq_eq_false_iff_ne.mpr (fun he => hs (he ▸ h))
        rw [List.filter_cons, hne]
        simp only [Bool.false_eq_true, if_false]
        exact dedupeAux_filter_seen k hk (nalcoKeyOf it :: seen) rest (List.mem_cons_of_mem _ h)

lemma dedupeAux_filter_new (k : String) (hk : k ≠ "") :
    ∀ (seen : List String) (l : List NalcoItem), k ∉ seen →
      (dedupeAux seen l).filter (fun it => nalcoKeyOf it == k) =
        (l.filter (fun it => nalcoKeyOf it == k)).take 1
  | _, [], _ => rfl
  | seen, it :: rest, h => by
    rw [dedupeAux]
    by_cases h0 : nalcoKeyOf it = ""
    · rw [if_pos h0]
      have hne : (nalcoKeyOf it == k) = false :=
        beq_eq_false_iff_ne.mpr (fun he => hk (he ▸ h0))
      rw [List.filter_cons, List.filter_cons, hne]
      simp only [Bool.false_eq_true, if_false]
      exact dedupeAux_filter_new k hk seen rest h
    · rw [if_neg h0]
      by_cases hs : nalcoKeyOf it ∈ seen
      · rw [if_pos hs]
        have hne : (nalcoKeyOf it == k) = false :=
          beq_eq_false_iff_ne.mpr (fun he => h (he ▸ hs))
        rw [List.filter_cons, hne]
        simp only [Bool.false_eq_true, if_false]
        exact dedupeAux_filter_new k hk seen rest h
      · rw [if_neg hs]
        by_cases he : nalcoKeyOf it = k
        · have heq : (nalcoKeyOf it == k) = true := beq_iff_eq.mpr he
          rw [List.filter_cons, List.filter_cons, heq]
          simp only [if_true]
          rw [dedupeAux_filter_seen k hk (nalcoKeyOf it :: seen) rest
            (he ▸ List.mem_cons_self _ _)]
          rfl
        · have hne : (nalcoKeyOf it == k) = false := beq_eq_false_iff_ne.mpr he
          rw [List.filter_cons, List.filter_cons, hne]
          simp only [Bool.false_eq_true, if_false]
          refine dedupeAux_filter_new k hk (nalcoKeyOf it :: seen) rest ?_
          intro hmem
          rcases List.mem_cons.mp hmem with hkk | hkk
          · exact he hkk.symm
          · exact h hkk

/-- `dedupe_items` keeps exactly the first item of each non-empty key. -/
lemma dedupe_items_filter (l : List NalcoItem) (k : String) (hk : k ≠ "") :
    (dedupe_items l).filter (fun it => nalcoKeyOf it == k) =
      (l.filter (fun it => nalcoKeyOf it == k)).take 1 :=
  dedupeAux_filter_new k hk [] l (by simp)

/-- `dedupe_items` keeps every item whose key is empty, in order. -/
lemma dedupeAux_filter_empty :
    ∀ (seen : List String) (l : List NalcoItem),
      (dedupeAux seen l).filter (fun it => nalcoKeyOf it == "") =
        l.filter (fun it => nalcoKeyOf it == "")
  | _, [] => rfl
  | seen, it :: rest => by
    rw [dedupeAux]
    by_cases h0 : nalcoKeyOf it = ""
    · rw [if_pos h0]
      have heq : (nalcoKeyOf it == "") = true := beq_iff_eq.mpr h0
      rw [List.filter_cons, List.filter_cons, heq]
      simp only [if_true]
      rw [dedupeAux_filter_empty seen rest]
    · rw [if_neg h0]
      have hne : (nalcoKeyOf it == "") = false := beq_eq_false_iff_ne.mpr h0
      by_cases hs : nalcoKeyOf it ∈ seen
      · rw [if_pos hs]
        rw [List.filter_cons, hne]
        simp only [Bool.false_eq_true, if_false]
        exact dedupeAux_filter_empty seen rest
      · rw [if_neg hs]
        rw [List.filter_cons, List.filter_cons, hne]
        simp only [Bool.false_eq_true, if_false]
        exact dedupeAux_filter_empty (nalcoKeyOf it :: seen) rest

/-! ## str.strip() is idempotent -/

lemma dropWhile_idem (p : Char → Bool) (l : List Char) :
    (l.dropWhile p).dropWhile p = l.dropWhile p := by
  induction l with
  | nil => rfl
  | cons c t ih =>
    by_cases hc : p c = true
    · rw [List.dropWhile_cons, if_pos hc, ih]
    · rw [List.dropWhile_cons, if_neg hc, List.dropWhile_cons, if_neg hc]

lemma dropEndWhile_idem (p : Char → Bool) (l : List Char) :
    dropEndWhile p (dropEndWhile p l) = dropEndWhile p l := by
  induction l with
  | nil => rfl
  | cons c t ih =>
    rw [dropEndWhile]
    cases h : dropEndWhile p t with
    | nil =>
      by_cases hc : p c = true
      · rw [if_pos hc]
        rfl
      · rw [if_neg hc]
        simp only [dropEndWhile, if_neg hc]
    | cons r rs =>
      rw [h] at ih
      show dropEndWhile p (c :: r :: rs) = c :: r :: rs
      rw [dropEndWhile, ih]

lemma dropWhile_dropEndWhile (p : Char → Bool) (l : List Char)
    (h : l.dropWhile p = l) : (dropEndWhile p l).dropWhile p = dropEndWhile p l := by
  cases l with
  | nil => rfl
  | cons c t =>
    have hc : p c = false := by
      by_contra hcon
      have hc2 : p c = true := by
        cases hval : p c
        · exact absurd hval hcon
        · rfl
      rw [List.dropWhile_cons, if_pos hc2] at h
      have hlen := (List.dropWhile_sublist (l := t) p).length_le
      rw [h] at hlen
      simp at hlen
    rw [dropEndWhile]
    cases hde : dropEndWhile p t with
    | nil =>
      rw [if_neg (by simp [hc])]
      simp [List.dropWhile_cons, hc]
    | cons r rs =>
      simp [List.dropWhile_cons, hc]

lemma pyStripChars_idem (l : List Char) : pyStripChars (pyStripChars l) = pyStripChars l := by
  unfold pyStripChars
  rw [dropWhile_dropEndWhile isPyWs (l.dropWhile isPyWs) (dropWhile_idem isPyWs l)]
  exact dropEndWhile_idem isPyWs (l.dropWhile isPyWs)

/-- Python `str.strip()` is idempotent: a stripped string has no leading or
trailing whitespace left to strip. -/
lemma pyStrip_idem (s : String) : pyStrip (pyStrip s) = pyStrip s := by
  unfold pyStrip
  exact congrArg String.mk (pyStripChars_idem s.data)

/-! ## Membership plumbing -/

lemma firstWinsAux_sublist {α : Type} (key : α → String) :
    ∀ (seen : List String) (l : List α), (firstWinsAux key seen l).Sublist l
  | _, [] => List.Sublist.refl []
  | seen, x :: xs => by
    rw [firstWinsAux]
    by_cases hx : key x ∈ seen
    · rw [if_pos hx]
      exact (firstWinsAux_sublist key seen xs).cons x
    · rw [if_neg hx]
      exact (firstWinsAux_sublist key (key x :: seen) xs).cons₂ x

lemma mem_firstWins {α : Type} {key : α → String} {l : List α} {x : α}
    (h : x ∈ firstWins key l) : x ∈ l :=
  (firstWinsAux_sublist key [] l).mem h

lemma mem_psuFinal_of {fetch : String → List FpEntry} {now : PyDateTime} {it : PsuItem}
    (h : it ∈ psuFinalItems fetch now) :
    it ∈ psuGoogleItems fetch now ++ psuOfficialItems fetch now := by
  have h1 : it ∈ sortDesc (fun it : PsuItem => it.date) (psuDedupedItems fetch now) :=
    (List.take_sublist _ _).mem h
  exact mem_firstWins (mem_sortDesc.mp h1)

/-- Every candidate the Google loop of fetch_psu_news.py produces carries
the Google provenance fields and a stripped title and url. -/
lemma psuGoogleItems_shape {fetch : String → List FpEntry} {now : PyDateTime} {it : PsuItem}
    (h : it ∈ psuGoogleItems fetch now) :
    it.source = "Google News" ∧ it.source_type = "google" ∧
      pyStrip it.title = it.title ∧ pyStrip it.url = it.url := by
  rcases List.mem_flatMap.mp h with ⟨cfg, _, hin⟩
  rcases List.mem_flatMap.mp hin with ⟨k, _, hin2⟩
  rcases List.mem_map.mp hin2 with ⟨e, _, he⟩
  subst he
  exact ⟨rfl, rfl, pyStrip_idem e.title, pyStrip_idem e.link⟩

/-- Every candidate the official-RSS loop of fetch_psu_news.py produces
carries the official provenance kind and a stripped title and url. -/
lemma psuOfficialItems_shape {fetch : String → List FpEntry} {now : PyDateTime} {it : PsuItem}
    (h : it ∈ psuOfficialItems fetch now) :
    it.source_type = "official" ∧ pyStrip it.title = it.title ∧ pyStrip it.url = it.url := by
  rcases List.mem_flatMap.mp h with ⟨cfg, _, hin⟩
  rcases List.mem_flatMap.mp hin with ⟨sf, _, hin2⟩
  rcases List.mem_map.mp hin2 with ⟨e, _, he⟩
  subst he
  exact ⟨rfl, pyStrip_idem e.title, pyStrip_idem e.link⟩

/-- Every item fetch_google_news produces has a stripped title and url. -/
lemma googleItems_shape {resp : Option (Option (List RssEntry))}
    {pd : String → Option PyDateTime} {it : NalcoItem}
    (h : it ∈ fetch_google_news resp pd) :
    it.source = "Google News" ∧ pyStrip it.title = it.title ∧ pyStrip it.url = it.url := by
  match resp with
  | none => simp [fetch_google_news] at h
  | some none => simp [fetch_google_news] at h
  | some (some entries) =>
    rcases List.mem_map.mp h with ⟨e, _, he⟩
    subst he
    exact ⟨rfl, pyStrip_idem _, pyStrip_idem _⟩

/-! ## Nonemptiness plumbing -/

lemma dedupe_items_ne_nil {l : List NalcoItem} (h : l ≠ []) : dedupe_items l ≠ [] := by
  cases l with
  | nil => exact absurd rfl h
  | cons it rest =>
    rw [dedupe_items, dedupeAux]
    by_cases h0 : nalcoKeyOf it = ""
    · rw [if_pos h0]
      exact List.cons_ne_nil _ _
    · rw [if_neg h0, if_neg (by simp : ¬ nalcoKeyOf it ∈ ([] : List String))]
      exact List.cons_ne_nil _ _

lemma sortDesc_ne_nil {α : Type} {key : α → String} {l : List α} (h : l ≠ []) :
    sortDesc key l ≠ [] := by
  intro hcon
  have hlen := length_sortDesc key l
  rw [hcon] at hlen
  cases l with
  | nil => exact h rfl
  | cons a t => simp at hlen

lemma take_ne_nil {α : Type} {l : List α} {n : Nat} (hn : n ≠ 0) (h : l ≠ []) :
    l.take n ≠ [] := by
  cases l with
  | nil => exact absurd rfl h
  | cons a t =>
    cases n with
    | zero => exact absurd rfl hn
    | succ m => exact List.cons_ne_nil _ _

lemma mem_psuFinal_dedup {fetch : String → List FpEntry} {now : PyDateTime} {it : PsuItem}
    (h : it ∈ psuFinalItems fetch now) : it ∈ psuDedupedItems fetch now :=
  mem_sortDesc.mp ((List.take_sublist _ _).mem h)

/-! ## Claim theorems -/

/-- C1: per distinct non-empty URL key, exactly one item survives
deduplication, namely the first-arrived candidate with all of its fields:
in fetch_nalco_news.py the survivors of `dedupe_items` with a given
non-empty key are exactly the first input item with that key, and in the
dict pipelines (fetch_local_news.py shown; fetch_psu_news.py uses the same
accumulation) the dict values with a given key are exactly the
first-arrived record with that key. -/
theorem claim_C1_dedupe_first_wins (l : List NalcoItem) (es : List LocalItem)
    (k : String) (hk : k ≠ "") :
    (dedupe_items l).filter (fun it => nalcoKeyOf it == k) =
      (l.filter (fun it => nalcoKeyOf it == k)).take 1
    ∧ (firstWins (fun it : LocalItem => it.url) es).filter (fun it => it.url == k) =
        (es.filter (fun it => it.url == k)).take 1 :=
  ⟨dedupe_items_filter l k hk, firstWins_filter (fun it : LocalItem => it.url) es k⟩

/-- Witness for C1 at a concrete duplicate pair in each pipeline shape. -/
theorem claim_C1_witness :
    ("https://u.example/x" : String) ≠ ""
    ∧ ((dedupe_items [itemU1, itemU2]).filter
          (fun it => nalcoKeyOf it == "https://u.example/x") =
        ([itemU1, itemU2].filter (fun it => nalcoKeyOf it == "https://u.example/x")).take 1
      ∧ (firstWins (fun it : LocalItem => it.url) [locU1, locU2]).filter
            (fun it => it.url == "https://u.example/x") =
          ([locU1, locU2].filter (fun it => it.url == "https://u.example/x")).take 1) :=
  ⟨by decide, claim_C1_dedupe_first_wins [itemU1, itemU2] [locU1, locU2]
    "https://u.example/x" (by decide)⟩

/-- C4: each pipeline writes at most its configured maximum number of
items (40 for fetch_nalco_news.py, 25 for fetch_local_news.py, 40 for
fetch_psu_news.py), whatever the adapters produced. -/
theorem claim_C4_bounded_size (press : Option (List PressBlock))
    (google : Option (Option (List RssEntry))) (pd : String → Option PyDateTime)
    (detail : String → Option (Option String)) (uj : String → String → String)
    (fetchL fetchP : String → List FpEntry) (nowL nowP : PyDateTime) :
    (nalcoMainItems press google pd detail uj).length ≤ 40
    ∧ (localFinalItems fetchL nowL).length ≤ 25
    ∧ (psuFinalItems fetchP nowP).length ≤ 40 := by
  refine ⟨?_, ?_, ?_⟩
  · rw [nalcoMainItems]
    exact List.length_take_le 40 _
  · rw [localFinalItems]
    exact List.length_take_le LOCAL_MAX_ITEMS _
  · rw [psuFinalItems]
    exact List.length_take_le PSU_MAX_ITEMS _

/-- C5 (amended): `dedupe_items` of fetch_nalco_news.py keeps every item
whose stripped URL is empty, in order, never merging them; but the
dict-based pipelines key their dict by the (possibly stripped) link, so
all empty-URL records collide on the key `""` and only the first survives. -/
theorem claim_C5_empty_url_amended (l : List NalcoItem) (es : List LocalItem)
    (ps : List PsuItem) :
    (dedupe_items l).filter (fun it => nalcoKeyOf it == "") =
      l.filter (fun it => nalcoKeyOf it == "")
    ∧ (firstWins (fun it : LocalItem => it.url) es).filter (fun it => it.url == "") =
        (es.filter (fun it => it.url == "")).take 1
    ∧ (firstWins (fun it : PsuItem => it.url) ps).filter (fun it => it.url == "") =
        (ps.filter (fun it => it.url == "")).take 1 :=
  ⟨dedupeAux_filter_empty [] l,
   firstWins_filter (fun it : LocalItem => it.url) es "",
   firstWins_filter (fun it : PsuItem => it.url) ps ""⟩

/-- Counterexample to C5 as stated: in fetch_local_news.py entries with
an empty link are merged — the run fetches twenty-two empty-URL
candidates (two per keyword feed) but writes only one item, so empty-URL
items are not always kept. -/
theorem claim_C5_counterexample :
    (localAllEntries localFetchC5).length = 22
    ∧ (localAllEntries localFetchC5).all (fun e => e.link == "") = true
    ∧ (localFinalItems localFetchC5 nowFix).length = 1 := by
  decide

/-- C6: a failed fetch yields zero candidates from that adapter and never
aborts the run: with the press request failed (and likewise with the
Google request failed or its XML unparseable yielding `[]`), the
fetch_nalco_news.py run still completes with a nonempty item list as long
as the other source returned at least one entry. -/
theorem claim_C6_graceful_degradation (detail : String → Option (Option String))
    (uj : String → String → String) (pd : String → Option PyDateTime)
    (ch : List RssEntry) (hch : ch ≠ []) :
    fetch_nalco_press none detail uj = []
    ∧ fetch_google_news none pd = []
    ∧ fetch_google_news (some none) pd = []
    ∧ nalcoMainItems none (some (some ch)) pd detail uj ≠ [] := by
  refine ⟨rfl, rfl, rfl, ?_⟩
  rw [nalcoMainItems]
  refine take_ne_nil (by decide) (sortDesc_ne_nil (dedupe_items_ne_nil ?_))
  show fetch_nalco_press none detail uj ++ fetch_google_news (some (some ch)) pd ≠ []
  intro hcon
  rw [fetch_nalco_press, fetch_google_news, List.nil_append] at hcon
  exact hch (List.map_eq_nil_iff.mp hcon)

/-- Witness for C6 with one concrete Google entry and a failed press
fetch. -/
theorem claim_C6_witness :
    ([entryB] ≠ ([] : List RssEntry))
    ∧ (fetch_nalco_press none (fun _ => none) (fun _ h => h) = []
      ∧ fetch_google_news none pdFix = []
      ∧ fetch_google_news (some none) pdFix = []
      ∧ nalcoMainItems none (some (some [entryB])) pdFix (fun _ => none) (fun _ h => h) ≠ []) :=
  ⟨by decide, claim_C6_graceful_degradation (fun _ => none) (fun _ h => h) pdFix [entryB] (by decide)⟩

/-- C9 (amended): fetch_psu_news.py strips whitespace from every
persisted title and url, and the Google adapter of fetch_nalco_news.py
does too; stripping is idempotent, so those fields carry no leading or
trailing whitespace.  (fetch_local_news.py performs no trimming — see the
counterexample.) -/
theorem claim_C9_trim_amended (fetchP : String → List FpEntry) (nowP : PyDateTime)
    (resp : Option (Option (List RssEntry))) (pd : String → Option PyDateTime)
    (it : PsuItem) (jt : NalcoItem) (hit : it ∈ psuFinalItems fetchP nowP)
    (hjt : jt ∈ fetch_google_news resp pd) :
    pyStrip it.title = it.title ∧ pyStrip it.url = it.url
    ∧ pyStrip jt.title = jt.title ∧ pyStrip jt.url = jt.url := by
  have hj := googleItems_shape hjt
  rcases List.mem_append.mp (mem_firstWins (mem_psuFinal_dedup hit)) with hg | ho
  · have hs := psuGoogleItems_shape hg
    exact ⟨hs.2.2.1, hs.2.2.2, hj.2.1, hj.2.2⟩
  · have hs := psuOfficialItems_shape ho
    exact ⟨hs.2.1, hs.2.2, hj.2.1, hj.2.2⟩

/-- Witness for C9 (amended) on concrete psu and nalco-google items. -/
theorem claim_C9_witness :
    (psuGoogleEntryItem "PSU" nowFix psuEntryG ∈ psuFinalItems psuFetchFix nowFix)
    ∧ (googleEntryItem pdFix entryB ∈ fetch_google_news (some (some [entryB])) pdFix)
    ∧ (pyStrip (psuGoogleEntryItem "PSU" nowFix psuEntryG).title =
        (psuGoogleEntryItem "PSU" nowFix psuEntryG).title
      ∧ pyStrip (psuGoogleEntryItem "PSU" nowFix psuEntryG).url =
          (psuGoogleEntryItem "PSU" nowFix psuEntryG).url
      ∧ pyStrip (googleEntryItem pdFix entryB).title = (googleEntryItem pdFix entryB).title
      ∧ pyStrip (googleEntryItem pdFix entryB).url = (googleEntryItem pdFix entryB).url) := by
  have hfin : psuFinalItems psuFetchFix nowFix = [psuGoogleEntryItem "PSU" nowFix psuEntryG] := rfl
  have hmemP : psuGoogleEntryItem "PSU" nowFix psuEntryG ∈ psuFinalItems psuFetchFix nowFix := by
    rw [hfin]
    exact List.mem_cons_self _ _
  have hmemG : googleEntryItem pdFix entryB ∈ fetch_google_news (some (some [entryB])) pdFix :=
    List.mem_cons_self _ _
  exact ⟨hmemP, hmemG,
    claim_C9_trim_amended psuFetchFix nowFix (some (some [entryB])) pdFix
      (psuGoogleEntryItem "PSU" nowFix psuEntryG) (googleEntryItem pdFix entryB) hmemP hmemG⟩

/-- Counterexample to C9 as stated: fetch_local_news.py writes titles and
URLs verbatim, so an entry with surrounding whitespace is persisted with
that whitespace intact. -/
theorem claim_C9_counterexample :
    localFinalItems localFetchC9 nowFix =
      [{ title := " T ", url := " u ", date := pyIso nowFix }]
    ∧ pyStrip " T " ≠ " T "
    ∧ pyStrip " u " ≠ " u " := by
  decide

/-- C10: the Google loop of fetch_psu_news.py runs before the official-RSS
loop, so when any Google feed yields a URL, every persisted item with that
URL carries the Google provenance (`source = "Google News"`,
`source_type = "google"`), never the official one. -/
theorem claim_C10_google_priority (fetch : String → List FpEntry) (now : PyDateTime)
    (u : String) (hg : ∃ x ∈ psuGoogleItems fetch now, x.url = u) :
    ∀ it ∈ psuFinalItems fetch now, it.url = u →
      it.source = "Google News" ∧ it.source_type = "google" := by
  intro it hit hu
  have hmem : it ∈ (psuDedupedItems fetch now).filter (fun x => x.url == u) :=
    List.mem_filter.mpr ⟨mem_psuFinal_dedup hit, beq_iff_eq.mpr hu⟩
  rw [psuDedupedItems, firstWins_filter, List.filter_append] at hmem
  rcases hg with ⟨x, hx, hxu⟩
  have hxf : x ∈ (psuGoogleItems fetch now).filter (fun x => x.url == u) :=
    List.mem_filter.mpr ⟨hx, beq_iff_eq.mpr hxu⟩
  cases hfg : (psuGoogleItems fetch now).filter (fun x => x.url == u) with
  | nil => rw [hfg] at hxf; exact absurd hxf (List.not_mem_nil x)
  | cons hd tl =>
    rw [hfg, List.cons_append, List.take_succ_cons, List.take_zero] at hmem
    have hithd : it = hd := by
      rcases List.mem_singleton.mp hmem with h
      exact h
    have hhd : hd ∈ psuGoogleItems fetch now := by
      have : hd ∈ (psuGoogleItems fetch now).filter (fun x => x.url == u) := by
        rw [hfg]; exact List.mem_cons_self _ _
      exact (List.mem_filter.mp this).1
    have hs := psuGoogleItems_shape hhd
    exact ⟨hithd ▸ hs.1, hithd ▸ hs.2.1⟩

/-- Witness for C10: one shared URL yielded by both the first Google feed
and the PIB official feed; the persisted item for it is the Google one. -/
theorem claim_C10_witness :
    (∃ x ∈ psuGoogleItems psuFetchFix nowFix, x.url = "s")
    ∧ (∀ it ∈ psuFinalItems psuFetchFix nowFix, it.url = "s" →
        it.source = "Google News" ∧ it.source_type = "google") :=
  ⟨by decide,
    claim_C10_google_priority psuFetchFix nowFix "s" (by decide)⟩

/-! ## Claims C3 and C8 -/

/-- The length of a Python slice `s[:n]` is at most `n`. -/
lemma pyTake_length_le (n : Nat) (s : String) : (pyTake n s).length ≤ n := by
  show (s.data.take n).length ≤ n
  rw [List.length_take]
  exact min_le_left n s.data.length

/-- C3 (amended): in the dict pipelines (fetch_local_news.py,
fetch_psu_news.py) a candidate without a parsed time tuple receives the
run's start instant as its date; but in fetch_nalco_news.py an absent,
empty or unparseable `pubDate` leaves both `date` and `timestamp` as
`None`, and such an item's sort key is the empty string, which no string
compares below — so it sorts as the oldest item, not the most recent. -/
theorem claim_C3_missing_timestamp_amended (nowL nowP : PyDateTime) (cat : String)
    (e : FpEntry) (he : e.published_parsed = none) (pd : String → Option PyDateTime)
    (r : RssEntry)
    (hr : r.pubDate = none ∨ r.pubDate = some "" ∨ ∃ p, r.pubDate = some p ∧ pd p = none)
    (s : String) :
    (localEntryItem nowL e).date = pyIso nowL
    ∧ (psuGoogleEntryItem cat nowP e).date = pyIso nowP
    ∧ (googleEntryItem pd r).date = none
    ∧ (googleEntryItem pd r).timestamp = none
    ∧ sortKeyNalco (googleEntryItem pd r) = ""
    ∧ strLtB s (sortKeyNalco (googleEntryItem pd r)) = false := by
  have hts : parseTs pd r.pubDate = none := by
    rcases hr with h | h | ⟨p, hp, hpd⟩
    · rw [h]; rfl
    · rw [h, parseTs, if_pos rfl]
    · rw [hp, parseTs]
      by_cases hp0 : p = ""
      · rw [if_pos hp0]
      · rw [if_neg hp0, hpd]
  refine ⟨?_, ?_, ?_, ?_, ?_, ?_⟩
  · rw [localEntryItem, he]
  · rw [psuGoogleEntryItem, he]
  · show (parseTs pd r.pubDate).map dateIso = none
    rw [hts]; rfl
  · show (parseTs pd r.pubDate).map pyIso = none
    rw [hts]; rfl
  · show ((parseTs pd r.pubDate).map pyIso).getD "" = ""
    rw [hts]; rfl
  · have hkey : sortKeyNalco (googleEntryItem pd r) = "" := by
      show ((parseTs pd r.pubDate).map pyIso).getD "" = ""
      rw [hts]; rfl
    rw [hkey]
    exact strLtB_empty_right s

/-- Witness for C3 (amended) on concrete undated entries. -/
theorem claim_C3_witness :
    localEntryUndated.published_parsed = none
    ∧ (entryNoDate.pubDate = none ∨ entryNoDate.pubDate = some "" ∨
        ∃ p, entryNoDate.pubDate = some p ∧ pdFix p = none)
    ∧ ((localEntryItem nowFix localEntryUndated).date = pyIso nowFix
      ∧ (psuGoogleEntryItem "PSU" nowFix localEntryUndated).date = pyIso nowFix
      ∧ (googleEntryItem pdFix entryNoDate).date = none
      ∧ (googleEntryItem pdFix entryNoDate).timestamp = none
      ∧ sortKeyNalco (googleEntryItem pdFix entryNoDate) = ""
      ∧ strLtB "2024-05-03T20:00:00+00:00" (sortKeyNalco (googleEntryItem pdFix entryNoDate)) =
          false) :=
  ⟨rfl, Or.inl rfl,
    claim_C3_missing_timestamp_amended nowFix nowFix "PSU" localEntryUndated rfl pdFix
      entryNoDate (Or.inl rfl) "2024-05-03T20:00:00+00:00"⟩

/-- Counterexample to C3 as stated: fetch_nalco_news.py gives an entry
without a `pubDate` a `None` date and `None` timestamp (not the run's
start instant), and the resulting item sorts after a dated item — as the
oldest, not the most recent. -/
theorem claim_C3_counterexample :
    (fetch_google_news (some (some [entryNoDate])) pdFix).map (fun it => it.timestamp) = [none]
    ∧ (fetch_google_news (some (some [entryNoDate])) pdFix).map (fun it => it.date) = [none]
    ∧ sortDesc sortKeyNalco [googleEntryItem pdFix entryNoDate, googleEntryItem pdFix entryB] =
        [googleEntryItem pdFix entryB, googleEntryItem pdFix entryNoDate] := by
  decide

/-- Every press summary is bounded by the 300-character slice. -/
lemma pressSummary_length_le (d : Option (Option String)) : (pressSummary d).length ≤ 300 := by
  match d with
  | none => exact Nat.zero_le 300
  | some none => exact Nat.zero_le 300
  | some (some t) => exact pyTake_length_le 300 t

/-- C8 (amended): every summary either adapter persists is at most 300
characters.  The Google adapter's summary is produced by a single
substitution pass of the tag regex (see the counterexample: that pass
removes every match present in the raw text but can leave angle-bracket
text that itself matches the tag pattern); the press adapter's summary is
extracted paragraph text, not subject to the regex at all. -/
theorem claim_C8_summary_amended (resp : Option (Option (List RssEntry)))
    (pd : String → Option PyDateTime) (press : Option (List PressBlock))
    (detail : String → Option (Option String)) (uj : String → String → String)
    (it jt : NalcoItem) (hit : it ∈ fetch_google_news resp pd)
    (hjt : jt ∈ fetch_nalco_press press detail uj) :
    it.summary.length ≤ 300 ∧ jt.summary.length ≤ 300 := by
  constructor
  · match resp with
    | none => simp [fetch_google_news] at hit
    | some none => simp [fetch_google_news] at hit
    | some (some entries) =>
      rcases List.mem_map.mp hit with ⟨e, _, he⟩
      subst he
      exact pyTake_length_le 300 _
  · match press with
    | none => simp [fetch_nalco_press] at hjt
    | some blocks =>
      rcases List.mem_filterMap.mp hjt with ⟨b, _, hb⟩
      rw [pressBlockItem] at hb
      split at hb
      · exact absurd hb (by simp)
      · split at hb
        · cases hb
          exact pressSummary_length_le _
        · exact absurd hb (by simp)

/-- Witness for C8 (amended) on a concrete Google entry and a concrete
press release. -/
theorem claim_C8_witness :
    (googleEntryItem pdFix entryTagDesc ∈ fetch_google_news (some (some [entryTagDesc])) pdFix)
    ∧ (pressItemFix ∈ fetch_nalco_press (some [pressBlockFix]) detailFix ujFix)
    ∧ ((googleEntryItem pdFix entryTagDesc).summary.length ≤ 300
      ∧ pressItemFix.summary.length ≤ 300) := by
  have h1 : googleEntryItem pdFix entryTagDesc ∈
      fetch_google_news (some (some [entryTagDesc])) pdFix := List.mem_cons_self _ _
  have h2 : pressItemFix ∈ fetch_nalco_press (some [pressBlockFix]) detailFix ujFix :=
    List.mem_cons_self _ _
  exact ⟨h1, h2,
    claim_C8_summary_amended (some (some [entryTagDesc])) pdFix (some [pressBlockFix])
      detailFix ujFix (googleEntryItem pdFix entryTagDesc) pressItemFix h1 h2⟩

/-- Counterexample to C8 as stated: the description `<x<y>z>` survives the
single substitution pass as the summary `<xz>`, which still matches the
tag pattern `<[^<]+?>` — the persisted summary is not free of markup-tag
matches. -/
theorem claim_C8_counterexample :
    (fetch_google_news (some (some [entryTagDesc])) pdFix).map (fun it => it.summary) = ["<xz>"]
    ∧ hasTagMatch "<xz>" = true := by
  decide

/-! ## Lexicographic structure of zero-padded decimal blocks

These lemmas relate the code-point comparison of `datetime.isoformat`
output to numeric comparison of the datetime fields, the heart of the
"lexicographic ISO comparison is chronological comparison" claim. -/

lemma padDigits_length (k : Nat) : ∀ n : Nat, (padDigits k n).length = k := by
  induction k with
  | zero => intro n; rfl
  | succ m ih =>
    intro n
    rw [padDigits]
    simp [ih]

lemma digitChar_lt_iff {d e : Nat} (hd : d < 10) (he : e < 10) :
    Nat.digitChar d < Nat.digitChar e ↔ d < e := by
  interval_cases d <;> interval_cases e <;> decide

lemma digitChar_eq_iff {d e : Nat} (hd : d < 10) (he : e < 10) :
    Nat.digitChar d = Nat.digitChar e ↔ d = e := by
  interval_cases d <;> interval_cases e <;> decide

lemma charListLt_cons_iff {x y : Char} {xs ys : List Char} :
    charListLt (x :: xs) (y :: ys) = true ↔ x < y ∨ (x = y ∧ charListLt xs ys = true) := by
  rw [charListLt]
  by_cases hxy : x < y
  · rw [if_pos hxy]
    simp [hxy]
  · rw [if_neg hxy]
    by_cases hyx : y < x
    · rw [if_pos hyx]
      simp only [Bool.false_eq_true, false_iff]
      rintro (h | ⟨h, _⟩)
      · exact hxy h
      · subst h
        exact lt_irrefl x hyx
    · rw [if_neg hyx]
      have hxey : x = y := le_antisymm (not_lt.mp hyx) (not_lt.mp hxy)
      simp [hxy, hxey]

lemma charListLt_cons_same (c : Char) (a b : List Char) :
    charListLt (c :: a) (c :: b) = charListLt a b := by
  rw [charListLt, if_neg (lt_irrefl c), if_neg (lt_irrefl c)]

lemma charListLt_append_iff : ∀ {a b : List Char} (c d : List Char), a.length = b.length →
    (charListLt (a ++ c) (b ++ d) = true ↔
      charListLt a b = true ∨ (a = b ∧ charListLt c d = true))
  | [], [], c, d, _ => by simp [charListLt]
  | [], _ :: _, c, d, h => by simp at h
  | _ :: _, [], c, d, h => by simp at h
  | x :: xs, y :: ys, c, d, h => by
    have hlen : xs.length = ys.length := by simpa using h
    rw [List.cons_append, List.cons_append, charListLt_cons_iff,
        charListLt_append_iff c d hlen, charListLt_cons_iff]
    constructor
    · rintro (hxy | ⟨hxey, hlt | ⟨heq, hcd⟩⟩)
      · exact Or.inl (Or.inl hxy)
      · exact Or.inl (Or.inr ⟨hxey, hlt⟩)
      · exact Or.inr ⟨by rw [hxey, heq], hcd⟩
    · rintro ((hxy | ⟨hxey, hlt⟩) | ⟨heq, hcd⟩)
      · exact Or.inl hxy
      · exact Or.inr ⟨hxey, Or.inl hlt⟩
      · injection heq with h1 h2
        exact Or.inr ⟨h1, Or.inr ⟨h2, hcd⟩⟩

lemma charListLt_single {x y : Char} : charListLt [x] [y] = true ↔ x < y := by
  rw [charListLt]
  by_cases h : x < y
  · rw [if_pos h]
    simp [h]
  · rw [if_neg h]
    by_cases h2 : y < x
    · rw [if_pos h2]
      simp [h]
    · rw [if_neg h2]
      simp [charListLt, h]

lemma padDigits_eq_iff : ∀ (k n m : Nat), n < 10 ^ k → m < 10 ^ k →
    (padDigits k n = padDigits k m ↔ n = m)
  | 0, n, m, hn, hm => by
    have hn0 : n = 0 := by simpa using hn
    have hm0 : m = 0 := by simpa using hm
    subst hn0
    subst hm0
    simp
  | k + 1, n, m, hn, hm => by
    have hn10 : n / 10 < 10 ^ k := by
      rw [Nat.div_lt_iff_lt_mul (by norm_num)]
      calc n < 10 ^ (k + 1) := hn
        _ = 10 ^ k * 10 := by rw [pow_succ]
    have hm10 : m / 10 < 10 ^ k := by
      rw [Nat.div_lt_iff_lt_mul (by norm_num)]
      calc m < 10 ^ (k + 1) := hm
        _ = 10 ^ k * 10 := by rw [pow_succ]
    rw [padDigits, padDigits]
    constructor
    · intro heq
      have hparts := List.append_inj heq (by rw [padDigits_length, padDigits_length])
      have hhi := (padDigits_eq_iff k _ _ hn10 hm10).mp hparts.1
      have hlo : n % 10 = m % 10 := by
        have := hparts.2
        simp only [List.cons.injEq] at this
        exact (digitChar_eq_iff (Nat.mod_lt n (by norm_num)) (Nat.mod_lt m (by norm_num))).mp this.1
      omega
    · intro heq
      rw [heq]

lemma padDigits_lt_iff : ∀ (k n m : Nat), n < 10 ^ k → m < 10 ^ k →
    (charListLt (padDigits k n) (padDigits k m) = true ↔ n < m)
  | 0, n, m, hn, hm => by
    have hn0 : n = 0 := by simpa using hn
    have hm0 : m = 0 := by simpa using hm
    subst hn0
    subst hm0
    simp [padDigits, charListLt]
  | k + 1, n, m, hn, hm => by
    have hn10 : n / 10 < 10 ^ k := by
      rw [Nat.div_lt_iff_lt_mul (by norm_num)]
      calc n < 10 ^ (k + 1) := hn
        _ = 10 ^ k * 10 := by rw [pow_succ]
    have hm10 : m / 10 < 10 ^ k := by
      rw [Nat.div_lt_iff_lt_mul (by norm_num)]
      calc m < 10 ^ (k + 1) := hm
        _ = 10 ^ k * 10 := by rw [pow_succ]
    rw [padDigits, padDigits,
        charListLt_append_iff _ _ (by rw [padDigits_length, padDigits_length]),
        padDigits_lt_iff k _ _ hn10 hm10,
        padDigits_eq_iff k _ _ hn10 hm10,
        charListLt_single,
        digitChar_lt_iff (Nat.mod_lt n (by norm_num)) (Nat.mod_lt m (by norm_num))]
    omega

/-- Comparing two equal-width zero-padded blocks followed by arbitrary
tails: the numeric block decides unless equal, in which case the tails
decide. -/
lemma padBlock_lt_iff (k n m : Nat) (r1 r2 : List Char) (hn : n < 10 ^ k) (hm : m < 10 ^ k) :
    (charListLt (padDigits k n ++ r1) (padDigits k m ++ r2) = true ↔
      n < m ∨ (n = m ∧ charListLt r1 r2 = true)) := by
  rw [charListLt_append_iff r1 r2 (by rw [padDigits_length, padDigits_length]),
      padDigits_lt_iff k n m hn hm, padDigits_eq_iff k n m hn hm]

lemma monthLen_le_31 : ∀ m : Nat, monthLen m ≤ 31
  | 0 => by decide
  | 1 => by decide
  | 2 => by decide
  | 3 => by decide
  | 4 => by decide
  | 5 => by decide
  | 6 => by decide
  | 7 => by decide
  | 8 => by decide
  | 9 => by decide
  | 10 => by decide
  | 11 => by decide
  | 12 => by decide
  | n + 13 => by
    show (0 : Nat) ≤ 31
    decide

lemma daysInMonth_le_31 (y m : Nat) : daysInMonth y m ≤ 31 := by
  rw [daysInMonth]
  by_cases hc : (m = 2 && isLeap y) = true
  · rw [if_pos hc]
    norm_num
  · rw [if_neg hc]
    exact monthLen_le_31 m

/-- Comparing the fractional-seconds-plus-offset tails of two isoformat
strings with the same UTC offset: the microsecond fields decide.  The
absent fractional block (microsecond zero) compares below any present one
because the offset sign characters `+`/`-` precede `.` in code-point
order. -/
lemma fracTz_lt_iff (μ1 μ2 : Nat) (z : Int) (h1 : μ1 < 1000000) (h2 : μ2 < 1000000) :
    (charListLt (fracChars μ1 ++ tzSuffixChars (some z))
        (fracChars μ2 ++ tzSuffixChars (some z)) = true ↔ μ1 < μ2) := by
  have hpow : (10 : Nat) ^ 6 = 1000000 := by norm_num
  have hsignlt : (if z < 0 then '-' else '+') < '.' := by
    by_cases h : z < 0
    · rw [if_pos h]
      decide
    · rw [if_neg h]
      decide
  by_cases hz1 : μ1 = 0
  · by_cases hz2 : μ2 = 0
    · subst hz1
      subst hz2
      rw [fracChars, if_pos rfl]
      simp only [List.nil_append]
      rw [charListLt_irrefl]
      simp
    · subst hz1
      rw [fracChars, fracChars, if_pos rfl, if_neg hz2]
      simp only [List.nil_append, List.cons_append]
      rw [tzSuffixChars, charListLt_cons_iff]
      constructor
      · intro _
        exact Nat.pos_of_ne_zero hz2
      · intro _
        exact Or.inl hsignlt
  · by_cases hz2 : μ2 = 0
    · subst hz2
      rw [fracChars, fracChars, if_neg hz1, if_pos rfl]
      simp only [List.nil_append, List.cons_append]
      rw [tzSuffixChars, charListLt_cons_iff]
      constructor
      · rintro (h | ⟨h, _⟩)
        · exact absurd hsignlt (lt_asymm h)
        · rw [h] at hsignlt
          exact absurd hsignlt (lt_irrefl _)
      · intro h
        exact absurd h (Nat.not_lt_zero μ1)
    · rw [fracChars, fracChars, if_neg hz1, if_neg hz2]
      simp only [List.cons_append]
      rw [charListLt_cons_same, padBlock_lt_iff 6 μ1 μ2 _ _ (hpow ▸ h1) (hpow ▸ h2),
        charListLt_irrefl]
      simp

/-- Code-point comparison of two isoformat strings with the same UTC
offset is lexicographic comparison of the field tuples. -/
lemma isoChars_lt_iff {dt1 dt2 : PyDateTime} (h1 : ValidDT dt1) (h2 : ValidDT dt2)
    {z : Int} (hz1 : dt1.tz = some z) (hz2 : dt2.tz = some z) :
    (charListLt (isoChars dt1) (isoChars dt2) = true ↔
      (dt1.year < dt2.year ∨ (dt1.year = dt2.year ∧
       (dt1.month < dt2.month ∨ (dt1.month = dt2.month ∧
       (dt1.day < dt2.day ∨ (dt1.day = dt2.day ∧
       (dt1.hour < dt2.hour ∨ (dt1.hour = dt2.hour ∧
       (dt1.minute < dt2.minute ∨ (dt1.minute = dt2.minute ∧
       (dt1.second < dt2.second ∨ (dt1.second = dt2.second ∧
        dt1.microsecond < dt2.microsecond))))))))))))) := by
  obtain ⟨hy1a, hy1b, hmo1a, hmo1b, hd1a, hd1b, hh1, hmi1, hs1, hμ1⟩ := h1
  obtain ⟨hy2a, hy2b, hmo2a, hmo2b, hd2a, hd2b, hh2, hmi2, hs2, hμ2⟩ := h2
  have hdm1 := daysInMonth_le_31 dt1.year dt1.month
  have hdm2 := daysInMonth_le_31 dt2.year dt2.month
  rw [isoChars, isoChars, hz1, hz2,
    padBlock_lt_iff 4 dt1.year dt2.year _ _ (by norm_num; omega) (by norm_num; omega),
    charListLt_cons_same,
    padBlock_lt_iff 2 dt1.month dt2.month _ _ (by norm_num; omega) (by norm_num; omega),
    charListLt_cons_same,
    padBlock_lt_iff 2 dt1.day dt2.day _ _ (by norm_num; omega) (by norm_num; omega),
    charListLt_cons_same,
    padBlock_lt_iff 2 dt1.hour dt2.hour _ _ (by norm_num; omega) (by norm_num; omega),
    charListLt_cons_same,
    padBlock_lt_iff 2 dt1.minute dt2.minute _ _ (by norm_num; omega) (by norm_num; omega),
    charListLt_cons_same,
    padBlock_lt_iff 2 dt1.second dt2.second _ _ (by norm_num; omega) (by norm_num; omega),
    fracTz_lt_iff dt1.microsecond dt2.microsecond z hμ1 hμ2]

/-! ## Calendar arithmetic: ordinals are monotone in the date tuple -/

lemma dbm_add_dim (y m : Nat) (h1 : 1 ≤ m) (h2 : m ≤ 12) :
    daysBeforeMonth y m + daysInMonth y m = daysBeforeMonth y (m + 1) := by
  interval_cases m <;> by_cases hl : isLeap y = true <;>
    simp [daysBeforeMonth, daysInMonth, dbmTable, monthLen, hl]

lemma dbm_13 (y : Nat) :
    daysBeforeMonth y 13 = 365 + (if isLeap y then 1 else 0) := by
  by_cases hl : isLeap y = true <;> simp [daysBeforeMonth, dbmTable, hl]

lemma dbm_mono (y : Nat) : ∀ {m m' : Nat}, 1 ≤ m → m ≤ m' → m' ≤ 13 →
    daysBeforeMonth y m ≤ daysBeforeMonth y m' := by
  intro m m' h1 h
  induction h with
  | refl => intro _; exact le_refl _
  | @step n hmn ih =>
    intro h13
    have hstep : daysBeforeMonth y n ≤ daysBeforeMonth y (n + 1) := by
      have hadd := dbm_add_dim y n (le_trans h1 hmn) (by omega)
      omega
    exact le_trans (ih (by omega)) hstep

lemma daysBeforeYear_succ (y : Nat) (hy : 1 ≤ y) :
    daysBeforeYear (y + 1) = daysBeforeYear y + 365 + (if isLeap y then 1 else 0) := by
  obtain ⟨a, rfl⟩ : ∃ a, y = a + 1 := ⟨y - 1, by omega⟩
  rw [daysBeforeYear, daysBeforeYear]
  simp only [Nat.add_sub_cancel]
  rw [Nat.succ_div a 4, Nat.succ_div a 100, Nat.succ_div a 400]
  have hd4 : (4 : Nat) ∣ 100 := by norm_num
  have hd100 : (100 : Nat) ∣ 400 := by norm_num
  have hds : a / 100 ≤ a := Nat.div_le_self a 100
  obtain ⟨q4, hq4⟩ : ∃ q, a / 4 = q := ⟨_, rfl⟩
  obtain ⟨q100, hq100⟩ : ∃ q, a / 100 = q := ⟨_, rfl⟩
  obtain ⟨q400, hq400⟩ : ∃ q, a / 400 = q := ⟨_, rfl⟩
  rw [hq4, hq100, hq400]
  rw [hq100] at hds
  by_cases h4 : 4 ∣ (a + 1)
  · by_cases h100 : 100 ∣ (a + 1)
    · by_cases h400 : 400 ∣ (a + 1)
      · have hleap : isLeap (a + 1) = true := by
          simp [isLeap, Nat.dvd_iff_mod_eq_zero.mp h4, Nat.dvd_iff_mod_eq_zero.mp h400]
        rw [if_pos h4, if_pos h100, if_pos h400, hleap, if_pos rfl]
        clear h4 h100 h400 hy hleap hd4 hd100 hq4 hq100 hq400
        omega
      · have hm400 : ¬ (a + 1) % 400 = 0 := fun hm => h400 (Nat.dvd_iff_mod_eq_zero.mpr hm)
        have hleap : isLeap (a + 1) = false := by
          simp [isLeap, Nat.dvd_iff_mod_eq_zero.mp h4, Nat.dvd_iff_mod_eq_zero.mp h100, hm400]
        rw [if_pos h4, if_pos h100, if_neg h400, hleap]
        simp only [Bool.false_eq_true, if_false]
        clear h4 h100 h400 hm400 hy hleap hd4 hd100 hq4 hq100 hq400
        omega
    · by_cases h400 : 400 ∣ (a + 1)
      · exact absurd (dvd_trans hd100 h400) h100
      · have hm100 : ¬ (a + 1) % 100 = 0 := fun hm => h100 (Nat.dvd_iff_mod_eq_zero.mpr hm)
        have hleap : isLeap (a + 1) = true := by
          simp [isLeap, Nat.dvd_iff_mod_eq_zero.mp h4, hm100]
        rw [if_pos h4, if_neg h100, if_neg h400, hleap, if_pos rfl]
        clear h4 h100 h400 hm100 hy hleap hd4 hd100 hq4 hq100 hq400
        omega
  · have h100 : ¬ 100 ∣ (a + 1) := fun h => h4 (dvd_trans hd4 h)
    have h400 : ¬ 400 ∣ (a + 1) := fun h => h100 (dvd_trans hd100 h)
    have hm4 : ¬ (a + 1) % 4 = 0 := fun hm => h4 (Nat.dvd_iff_mod_eq_zero.mpr hm)
    have hleap : isLeap (a + 1) = false := by
      simp [isLeap, hm4]
    rw [if_neg h4, if_neg h100, if_neg h400, hleap]
    simp only [Bool.false_eq_true, if_false]
    clear h4 h100 h400 hm4 hy hleap hd4 hd100 hq4 hq100 hq400
    omega

lemma daysBeforeYear_mono {y y' : Nat} (hy : 1 ≤ y) (h : y ≤ y') :
    daysBeforeYear y ≤ daysBeforeYear y' := by
  induction h with
  | refl => exact le_refl _
  | @step n hn ih =>
    have hsucc := daysBeforeYear_succ n (le_trans hy hn)
    have hbridge : daysBeforeYear (n + 1) = daysBeforeYear n.succ := rfl
    by_cases hl : isLeap n = true
    · rw [if_pos hl] at hsucc
      omega
    · rw [if_neg hl] at hsucc
      omega

lemma pyOrdinal_upper {y m d : Nat} (h1 : 1 ≤ m) (h2 : m ≤ 12) (h3 : d ≤ daysInMonth y m) :
    pyOrdinal y m d ≤ daysBeforeYear y + 365 + (if isLeap y then 1 else 0) := by
  rw [pyOrdinal]
  have hadd := dbm_add_dim y m h1 h2
  have hmono := dbm_mono y (by omega : 1 ≤ m + 1) (by omega : m + 1 ≤ 13) (le_refl 13)
  have h13 := dbm_13 y
  by_cases hl : isLeap y = true
  · rw [if_pos hl] at h13 ⊢
    omega
  · rw [if_neg hl] at h13 ⊢
    omega

lemma pyOrdinal_lower {y m d : Nat} (h1 : 1 ≤ d) :
    daysBeforeYear y + 1 ≤ pyOrdinal y m d := by
  rw [pyOrdinal]
  omega

lemma pyOrdinal_lt_of_lex {y1 m1 d1 y2 m2 d2 : Nat}
    (hy1 : 1 ≤ y1) (hm1 : 1 ≤ m1) (hm1b : m1 ≤ 12) (hd1b : d1 ≤ daysInMonth y1 m1)
    (hm2b : m2 ≤ 12) (hd2 : 1 ≤ d2)
    (hlex : y1 < y2 ∨ (y1 = y2 ∧ (m1 < m2 ∨ (m1 = m2 ∧ d1 < d2)))) :
    pyOrdinal y1 m1 d1 < pyOrdinal y2 m2 d2 := by
  rcases hlex with hy | ⟨rfl, hm | ⟨rfl, hd⟩⟩
  · have hup := pyOrdinal_upper (y := y1) (d := d1) hm1 hm1b hd1b
    have hlo := pyOrdinal_lower (y := y2) (m := m2) hd2
    have hsucc := daysBeforeYear_succ y1 hy1
    have hmono := daysBeforeYear_mono (y := y1 + 1) (by omega) (by omega : y1 + 1 ≤ y2)
    by_cases hl : isLeap y1 = true
    · rw [if_pos hl] at hup hsucc
      omega
    · rw [if_neg hl] at hup hsucc
      omega
  · rw [pyOrdinal, pyOrdinal]
    have hadd := dbm_add_dim y1 m1 hm1 hm1b
    have hmono := dbm_mono y1 (by omega : 1 ≤ m1 + 1) (by omega : m1 + 1 ≤ m2)
      (by omega : m2 ≤ 13)
    omega
  · rw [pyOrdinal, pyOrdinal]
    omega

lemma pyOrdinal_lt_iff {y1 m1 d1 y2 m2 d2 : Nat}
    (hy1 : 1 ≤ y1) (hm1 : 1 ≤ m1) (hm1b : m1 ≤ 12) (hd1 : 1 ≤ d1) (hd1b : d1 ≤ daysInMonth y1 m1)
    (hy2 : 1 ≤ y2) (hm2 : 1 ≤ m2) (hm2b : m2 ≤ 12) (hd2 : 1 ≤ d2) (hd2b : d2 ≤ daysInMonth y2 m2) :
    (pyOrdinal y1 m1 d1 < pyOrdinal y2 m2 d2 ↔
      y1 < y2 ∨ (y1 = y2 ∧ (m1 < m2 ∨ (m1 = m2 ∧ d1 < d2)))) := by
  constructor
  · intro hlt
    rcases Nat.lt_trichotomy y1 y2 with h | heq | h
    · exact Or.inl h
    · subst heq
      rcases Nat.lt_trichotomy m1 m2 with h | heq | h
      · exact Or.inr ⟨rfl, Or.inl h⟩
      · subst heq
        rcases Nat.lt_trichotomy d1 d2 with h | heq | h
        · exact Or.inr ⟨rfl, Or.inr ⟨rfl, h⟩⟩
        · subst heq
          exact absurd hlt (lt_irrefl _)
        · exact absurd
            (pyOrdinal_lt_of_lex hy1 hm1 hm1b hd2b hm1b hd1 (Or.inr ⟨rfl, Or.inr ⟨rfl, h⟩⟩))
            (Nat.lt_asymm hlt)
      · exact absurd
          (pyOrdinal_lt_of_lex hy1 hm2 hm2b hd2b hm1b hd1 (Or.inr ⟨rfl, Or.inl h⟩))
          (Nat.lt_asymm hlt)
    · exact absurd
        (pyOrdinal_lt_of_lex hy2 hm2 hm2b hd2b hm1b hd1 (Or.inl h))
        (Nat.lt_asymm hlt)
  · exact pyOrdinal_lt_of_lex hy1 hm1 hm1b hd1b hm2b hd2

lemma pyOrdinal_eq_iff {y1 m1 d1 y2 m2 d2 : Nat}
    (hy1 : 1 ≤ y1) (hm1 : 1 ≤ m1) (hm1b : m1 ≤ 12) (hd1 : 1 ≤ d1) (hd1b : d1 ≤ daysInMonth y1 m1)
    (hy2 : 1 ≤ y2) (hm2 : 1 ≤ m2) (hm2b : m2 ≤ 12) (hd2 : 1 ≤ d2) (hd2b : d2 ≤ daysInMonth y2 m2) :
    (pyOrdinal y1 m1 d1 = pyOrdinal y2 m2 d2 ↔ y1 = y2 ∧ m1 = m2 ∧ d1 = d2) := by
  constructor
  · intro heq
    have hn1 : ¬(y1 < y2 ∨ (y1 = y2 ∧ (m1 < m2 ∨ (m1 = m2 ∧ d1 < d2)))) := by
      intro hl
      exact absurd (pyOrdinal_lt_of_lex hy1 hm1 hm1b hd1b hm2b hd2 hl) (by omega)
    have hn2 : ¬(y2 < y1 ∨ (y2 = y1 ∧ (m2 < m1 ∨ (m2 = m1 ∧ d2 < d1)))) := by
      intro hl
      exact absurd (pyOrdinal_lt_of_lex hy2 hm2 hm2b hd2b hm1b hd1 hl) (by omega)
    omega
  · rintro ⟨rfl, rfl, rfl⟩
    rfl

lemma mul_add_lt_iff {B a1 a2 b1 b2 : Nat} (hb1 : b1 < B) (hb2 : b2 < B) :
    (a1 * B + b1 < a2 * B + b2 ↔ a1 < a2 ∨ (a1 = a2 ∧ b1 < b2)) := by
  constructor
  · intro h
    rcases Nat.lt_trichotomy a1 a2 with ha | ha | ha
    · exact Or.inl ha
    · subst ha
      exact Or.inr ⟨rfl, by omega⟩
    · exfalso
      have hrev : a2 * B + b2 < a1 * B + b1 := by
        calc a2 * B + b2 < a2 * B + B := by omega
          _ = (a2 + 1) * B := by ring
          _ ≤ a1 * B := mul_le_mul_right' (by omega) B
          _ ≤ a1 * B + b1 := Nat.le_add_right _ _
      omega
  · rintro (ha | ⟨rfl, hb⟩)
    · calc a1 * B + b1 < a1 * B + B := by omega
        _ = (a1 + 1) * B := by ring
        _ ≤ a2 * B := mul_le_mul_right' (by omega) B
        _ ≤ a2 * B + b2 := Nat.le_add_right _ _
    · omega

/-- Comparison of naive wall-clock microsecond counts is lexicographic
comparison of the full field tuple (for valid datetimes). -/
lemma naiveMicros_lt_iff {dt1 dt2 : PyDateTime} (h1 : ValidDT dt1) (h2 : ValidDT dt2) :
    (naiveMicros dt1 < naiveMicros dt2 ↔
      (dt1.year < dt2.year ∨ (dt1.year = dt2.year ∧
       (dt1.month < dt2.month ∨ (dt1.month = dt2.month ∧
       (dt1.day < dt2.day ∨ (dt1.day = dt2.day ∧
       (dt1.hour < dt2.hour ∨ (dt1.hour = dt2.hour ∧
       (dt1.minute < dt2.minute ∨ (dt1.minute = dt2.minute ∧
       (dt1.second < dt2.second ∨ (dt1.second = dt2.second ∧
        dt1.microsecond < dt2.microsecond))))))))))))) := by
  obtain ⟨hy1a, hy1b, hmo1a, hmo1b, hd1a, hd1b, hh1, hmi1, hs1, hμ1⟩ := h1
  obtain ⟨hy2a, hy2b, hmo2a, hmo2b, hd2a, hd2b, hh2, hmi2, hs2, hμ2⟩ := h2
  rw [naiveMicros, naiveMicros]
  have hb1 : ((dt1.hour * 60 + dt1.minute) * 60 + dt1.second) * 1000000 + dt1.microsecond
      < 86400000000 := by omega
  have hb2 : ((dt2.hour * 60 + dt2.minute) * 60 + dt2.second) * 1000000 + dt2.microsecond
      < 86400000000 := by omega
  rw [mul_add_lt_iff hb1 hb2,
    pyOrdinal_lt_iff hy1a hmo1a hmo1b hd1a hd1b hy2a hmo2a hmo2b hd2a hd2b,
    pyOrdinal_eq_iff hy1a hmo1a hmo1b hd1a hd1b hy2a hmo2a hmo2b hd2a hd2b]
  omega

/-- Chronological comparison of two aware datetimes with the same UTC
offset is lexicographic comparison of the field tuples. -/
lemma toInstant_lt_iff {dt1 dt2 : PyDateTime} (h1 : ValidDT dt1) (h2 : ValidDT dt2)
    {z : Int} (hz1 : dt1.tz = some z) (hz2 : dt2.tz = some z) :
    (toInstant dt1 < toInstant dt2 ↔
      (dt1.year < dt2.year ∨ (dt1.year = dt2.year ∧
       (dt1.month < dt2.month ∨ (dt1.month = dt2.month ∧
       (dt1.day < dt2.day ∨ (dt1.day = dt2.day ∧
       (dt1.hour < dt2.hour ∨ (dt1.hour = dt2.hour ∧
       (dt1.minute < dt2.minute ∨ (dt1.minute = dt2.minute ∧
       (dt1.second < dt2.second ∨ (dt1.second = dt2.second ∧
        dt1.microsecond < dt2.microsecond))))))))))))) := by
  rw [toInstant, toInstant, hz1, hz2]
  simp only [Option.getD_some]
  rw [sub_lt_sub_iff_right, Nat.cast_lt]
  exact naiveMicros_lt_iff h1 h2

/-- The clean half of the spec's sorting validity claim: for two
timestamps printed by `datetime.isoformat` with the same UTC offset — as
all timestamps of the dict pipelines are (offset `+00:00`) — Python string
comparison agrees with chronological comparison of the instants. -/
lemma pyIso_lt_iff_toInstant {dt1 dt2 : PyDateTime} (h1 : ValidDT dt1) (h2 : ValidDT dt2)
    {z : Int} (hz1 : dt1.tz = some z) (hz2 : dt2.tz = some z) :
    (strLtB (pyIso dt1) (pyIso dt2) = true ↔ toInstant dt1 < toInstant dt2) :=
  (isoChars_lt_iff h1 h2 hz1 hz2).trans (toInstant_lt_iff h1 h2 hz1 hz2).symm

/-! ## Claim C2 -/

/-- C2 (amended): every pipeline's output is sorted descending by its
string sort key (an earlier item's key is never lexicographically below a
later one's), and for timestamps printed with one common UTC offset — the
situation of the dict pipelines, whose timestamps all carry `+00:00` —
lexicographic string comparison coincides with chronological comparison of
the underlying instants.  (In the nalco pipeline, feed timestamps can
carry different UTC offsets and the two comparisons can disagree — see the
counterexample.) -/
theorem claim_C2_sorted_amended (press : Option (List PressBlock))
    (google : Option (Option (List RssEntry))) (pd : String → Option PyDateTime)
    (detail : String → Option (Option String)) (uj : String → String → String)
    (fetchL fetchP : String → List FpEntry) (nowL nowP : PyDateTime)
    (dt1 dt2 : PyDateTime) (z : Int) (h1 : ValidDT dt1) (h2 : ValidDT dt2)
    (hz1 : dt1.tz = some z) (hz2 : dt2.tz = some z) :
    DescBy sortKeyNalco (nalcoMainItems press google pd detail uj)
    ∧ DescBy (fun it : LocalItem => it.date) (localFinalItems fetchL nowL)
    ∧ DescBy (fun it : PsuItem => it.date) (psuFinalItems fetchP nowP)
    ∧ (strLtB (pyIso dt1) (pyIso dt2) = true ↔ toInstant dt1 < toInstant dt2) := by
  refine ⟨?_, ?_, ?_, pyIso_lt_iff_toInstant h1 h2 hz1 hz2⟩
  · rw [nalcoMainItems]
    exact take_descBy 40 (sortDesc_descBy _ _)
  · rw [localFinalItems]
    exact take_descBy LOCAL_MAX_ITEMS (sortDesc_descBy _ _)
  · rw [psuFinalItems]
    exact take_descBy PSU_MAX_ITEMS (sortDesc_descBy _ _)

/-- Witness for C2 (amended) on concrete runs and a concrete pair of
UTC timestamps (one with and one without a fractional-second block). -/
theorem claim_C2_witness :
    (ValidDT dtB ∧ ValidDT nowFix ∧ dtB.tz = some 0 ∧ nowFix.tz = some 0)
    ∧ (DescBy sortKeyNalco
        (nalcoMainItems none (some (some [entryB, entryA])) pdFix (fun _ => none) (fun _ h => h))
      ∧ DescBy (fun it : LocalItem => it.date) (localFinalItems localFetchC9 nowFix)
      ∧ DescBy (fun it : PsuItem => it.date) (psuFinalItems psuFetchFix nowFix)
      ∧ (strLtB (pyIso dtB) (pyIso nowFix) = true ↔ toInstant dtB < toInstant nowFix)) :=
  ⟨⟨by decide, by decide, rfl, rfl⟩,
    claim_C2_sorted_amended none (some (some [entryB, entryA])) pdFix (fun _ => none)
      (fun _ h => h) localFetchC9 psuFetchFix nowFix nowFix dtB nowFix 0
      (by decide) (by decide) rfl rfl⟩

/-- Counterexample to C2 as stated: in one fetch_nalco_news.py run two
Google entries carry RFC-2822 dates with different UTC offsets
(`+0530` and `GMT`).  The pipeline sorts the `23:00:00+05:30` item first —
its timestamp string is lexicographically larger — although its instant
(17:30 UTC) is chronologically earlier than the other item's 20:00 UTC:
lexicographic comparison disagrees with chronological comparison for a
pair of items produced in one run. -/
theorem claim_C2_counterexample :
    nalcoMainItems none (some (some [entryB, entryA])) pdFix (fun _ => none) (fun _ h => h) =
      [googleEntryItem pdFix entryA, googleEntryItem pdFix entryB]
    ∧ (googleEntryItem pdFix entryA).timestamp = some (pyIso dtA)
    ∧ (googleEntryItem pdFix entryB).timestamp = some (pyIso dtB)
    ∧ toInstant dtA < toInstant dtB := by
  decide

/-- On raw entries whose `link` and `title` attributes are present and whose
`published_parsed` is not a present-but-`None` value, the per-entry loop of
fetch_local_news.py raises nothing and builds exactly the first-writer-wins
accumulation of the projected, normalized entries. -/
theorem localAccumE_ok (now : PyDateTime) (l : List FpRawEntry) :
    ∀ seen : List String,
      (∀ e ∈ l, e.link ≠ none ∧ e.title ≠ none ∧ e.published_parsed ≠ some none) →
      localAccumE now seen l
        = Except.ok (firstWinsAux (fun it : LocalItem => it.url) seen
            (l.map (fun e => localEntryItem now (fpProj e)))) := by
  induction l with
  | nil => intro seen _; rfl
  | cons e es ih =>
    intro seen h
    obtain ⟨hl, ht, hp⟩ := h e (List.mem_cons_self e es)
    have hrest : ∀ x ∈ es, x.link ≠ none ∧ x.title ≠ none ∧ x.published_parsed ≠ some none :=
      fun x hx => h x (List.mem_cons_of_mem e hx)
    rcases he : e.link with _ | link
    · exact absurd he hl
    rcases hte : e.title with _ | t
    · exact absurd hte ht
    rcases hpp : e.published_parsed with _ | (_ | tu)
    · simp only [localAccumE, he, hte, hpp, List.map_cons, firstWinsAux, localEntryItem,
        fpProj, Option.getD, Option.bind]
      by_cases hmem : link ∈ seen
      · simp only [if_pos hmem]
        exact ih seen hrest
      · simp only [if_neg hmem]
        rw [ih (link :: seen) hrest]
        rfl
    · exact absurd hpp hp
    · simp only [localAccumE, he, hte, hpp, List.map_cons, firstWinsAux, localEntryItem,
        fpProj, Option.getD, Option.bind]
      by_cases hmem : link ∈ seen
      · simp only [if_pos hmem]
        exact ih seen hrest
      · simp only [if_neg hmem]
        rw [ih (link :: seen) hrest]
        rfl

/-- On tagged raw entries whose `link` and `title` attributes are present,
the two entry loops of fetch_psu_news.py raise nothing and build exactly
the first-writer-wins accumulation of the normalized tagged entries. -/
theorem psuAccumE_ok (now : PyDateTime) (l : List PsuRawTagged) :
    ∀ seen : List String,
      (∀ te ∈ l, te.entry.link ≠ none ∧ te.entry.title ≠ none) →
      psuAccumE now seen l
        = Except.ok (firstWinsAux (fun it : PsuItem => it.url) seen
            (l.map (psuTaggedItem now))) := by
  induction l with
  | nil => intro seen _; rfl
  | cons te tes ih =>
    intro seen h
    obtain ⟨hl, ht⟩ := h te (List.mem_cons_self te tes)
    have hrest : ∀ x ∈ tes, x.entry.link ≠ none ∧ x.entry.title ≠ none :=
      fun x hx => h x (List.mem_cons_of_mem te hx)
    rcases he : te.entry.link with _ | link0
    · exact absurd he hl
    rcases hte : te.entry.title with _ | t
    · exact absurd hte ht
    simp only [psuAccumE, he, hte, List.map_cons, firstWinsAux, psuTaggedItem, Option.getD]
    by_cases hmem : pyStrip link0 ∈ seen
    · simp only [if_pos hmem]
      exact ih seen hrest
    · simp only [if_neg hmem]
      rw [ih (pyStrip link0 :: seen) hrest]
      rfl

/-- Accumulating the projections of the raw local entries first-writer-wins
is the dict of the well-formed-entry model `localDedupedItems`. -/
theorem localDeduped_proj (fetch : String → List FpRawEntry) (now : PyDateTime) :
    firstWinsAux (fun it : LocalItem => it.url) []
        ((KEYWORDS.flatMap (fun k => fetch (localFeedUrl k))).map
          (fun e => localEntryItem now (fpProj e)))
      = localDedupedItems (fun u => (fetch u).map fpProj) now := by
  simp only [localDedupedItems, firstWins, localAllEntries, List.map_flatMap, List.map_map]
  rfl

/-- Accumulating the normalized tagged raw psu entries first-writer-wins
is the dict of the well-formed-entry model `psuDedupedItems`. -/
theorem psuDeduped_proj (fetch : String → List FpRawEntry) (now : PyDateTime) :
    firstWinsAux (fun it : PsuItem => it.url) []
        ((psuRawStream fetch).map (psuTaggedItem now))
      = psuDedupedItems (fun u => (fetch u).map fpProj) now := by
  simp only [psuDedupedItems, firstWins, psuGoogleItems, psuOfficialItems, psuRawStream,
    List.map_append, List.map_flatMap, List.map_map]
  rfl

/-- C7 (amended): in fetch_nalco_news.py the claim holds unconditionally —
every per-source and per-item error is swallowed, and the run raises iff
`os.makedirs` or the write raises.  The dict scripts have no error
handling: their runs on raw entries (`localRunE`, `psuRunE`) coincide
with the write-stage models, and raise iff the write stage raises, only
when every fetched entry is well-formed — `link` and `title` present, and
(for fetch_local_news.py, whose `hasattr`-only guard does not cover it) no
present-but-`None` `published_parsed`.  Outside that shape the loops raise
uncaught TypeError/AttributeError with no write failure. -/
theorem claim_C7_write_only_fatal_amended
    (press : Option (List PressBlock)) (google : Option (Option (List RssEntry)))
    (pd : String → Option PyDateTime) (detail : String → Option (Option String))
    (uj : String → String → String)
    (fetchL fetchP : String → List FpRawEntry) (nowL nowP : PyDateTime)
    (mk1 w1 w2 mk3 w3 : Except String Unit)
    (hL : ∀ e ∈ KEYWORDS.flatMap (fun k => fetchL (localFeedUrl k)),
      e.link ≠ none ∧ e.title ≠ none ∧ e.published_parsed ≠ some none)
    (hP : ∀ te ∈ psuRawStream fetchP, te.entry.link ≠ none ∧ te.entry.title ≠ none) :
    exceptOk (nalcoMainRun press google pd detail uj mk1 w1)
        = (exceptOk mk1 && exceptOk w1)
    ∧ localRunE fetchL nowL w2 = localRun (fun u => (fetchL u).map fpProj) nowL w2
    ∧ psuRunE fetchP nowP mk3 w3 = psuRun (fun u => (fetchP u).map fpProj) nowP mk3 w3
    ∧ exceptOk (localRunE fetchL nowL w2) = exceptOk w2
    ∧ exceptOk (psuRunE fetchP nowP mk3 w3) = (exceptOk mk3 && exceptOk w3) := by
  have hnalco : exceptOk (nalcoMainRun press google pd detail uj mk1 w1)
      = (exceptOk mk1 && exceptOk w1) := by
    cases mk1 <;> cases w1 <;> rfl
  have hlocal : localRunE fetchL nowL w2
      = localRun (fun u => (fetchL u).map fpProj) nowL w2 := by
    rw [localRunE,
      localAccumE_ok nowL (KEYWORDS.flatMap (fun k => fetchL (localFeedUrl k))) [] hL,
      localDeduped_proj]
    rfl
  have hpsu : psuRunE fetchP nowP mk3 w3
      = psuRun (fun u => (fetchP u).map fpProj) nowP mk3 w3 := by
    rw [psuRunE, psuAccumE_ok nowP (psuRawStream fetchP) [] hP, psuDeduped_proj]
    rfl
  refine ⟨hnalco, hlocal, hpsu, ?_, ?_⟩
  · rw [hlocal]
    cases w2 <;> rfl
  · rw [hpsu]
    cases mk3 <;> cases w3 <;> rfl

/-- Witness for C7 (amended): one run per dict script whose eleven
(resp. fourteen) raw entries are all well-formed; the local run with a
successful write equals the write-stage model, and the psu run with a
failing write fails exactly as its mkdir/write outcomes dictate. -/
theorem claim_C7_witness :
    (∀ e ∈ KEYWORDS.flatMap (fun k => rawFetchGood (localFeedUrl k)),
      e.link ≠ none ∧ e.title ≠ none ∧ e.published_parsed ≠ some none)
    ∧ (∀ te ∈ psuRawStream rawFetchGood, te.entry.link ≠ none ∧ te.entry.title ≠ none)
    ∧ localRunE rawFetchGood nowFix (Except.ok ())
        = localRun (fun u => (rawFetchGood u).map fpProj) nowFix (Except.ok ())
    ∧ exceptOk (psuRunE rawFetchGood nowFix (Except.ok ()) (Except.error "disk full"))
        = (exceptOk (Except.ok () : Except String Unit)
            && exceptOk (Except.error "disk full" : Except String Unit)) := by
  have h := claim_C7_write_only_fatal_amended none none (fun _ => none) (fun _ => none)
    (fun _ s => s) rawFetchGood rawFetchGood nowFix nowFix (Except.ok ()) (Except.ok ())
    (Except.ok ()) (Except.ok ()) (Except.error "disk full") (by decide) (by decide)
  exact ⟨by decide, by decide, h.2.1, h.2.2.2.2⟩

/-- Counterexample to C7 as stated: the dict scripts raise errors that are
not write failures.  A fetched entry whose `published_parsed` attribute is
present but `None` slips past fetch_local_news.py's `hasattr`-only guard
into `datetime(*...[:6], ...)` — an uncaught TypeError — and an entry with
no `link` attribute makes fetch_psu_news.py's `entry.link.strip()` raise
an uncaught AttributeError; both runs fail although every write outcome
succeeds, so "raises iff the final write step fails" is false of the
code. -/
theorem claim_C7_counterexample :
    badDateRaw.published_parsed = some none
    ∧ exceptOk (localRunE localFetchBadDate nowFix (Except.ok ())) = false
    ∧ noLinkRaw.link = none
    ∧ exceptOk (psuRunE psuFetchNoLink nowFix (Except.ok ()) (Except.ok ())) = false := by
  decide
